import Mathlib

/-
Verification of the Abalone rules engine (abalone/game.py, abalone/utils.py,
abalone/enums.py) against its natural-language specification.  The board
cells, moves and game operations below are shallow embeddings of the Python
source: pure functions become Lean functions, in-place mutation becomes
explicit state passing, and raised exceptions become an explicit error
channel that also carries the state reached before the raise (Python mutates
the game in place, so that state survives an exception).
-/

set_option maxHeartbeats 4000000
set_option maxRecDepth 40000

namespace Abalone

/-- Direction enumeration from abalone/enums.py: the six hex directions in
Python enum member order (the NE, E, SE, SW, W, NW aliases are the same
members and add nothing to iteration). -/
inductive Direction : Type
  | northEast
  | east
  | southEast
  | southWest
  | west
  | northWest
deriving DecidableEq, Fintype, Repr

/-- The six directions in Python enum iteration order, as in
for direction in Direction. -/
def allDirections : List Direction :=
  [.northEast, .east, .southEast, .southWest, .west, .northWest]

/-- Marble enumeration from abalone/enums.py: the tri-state cell content. -/
inductive Marble : Type
  | white
  | blank
  | black
deriving DecidableEq, Fintype, Repr

/-- Player enumeration from abalone/enums.py. -/
inductive Player : Type
  | white
  | black
deriving DecidableEq, Fintype, Repr

/-- Validity of a 0-based (row, column) coordinate pair as one of the 61
board cells: row index 0..8 stands for letters A..I and column index 0..8
for digits 1..9.  The condition mirrors membership in the Space enum of
abalone/enums.py: row A holds columns 1..5, each next row up to E starts at
1 and grows by one, rows F..I start one column later each (F2..F9 up to
I5..I9). -/
def spcOk (p : Fin 9 × Fin 9) : Prop :=
  p.1.val ≤ p.2.val + 4 ∧ p.2.val ≤ p.1.val + 4

instance (p : Fin 9 × Fin 9) : Decidable (spcOk p) :=
  instDecidableAnd

/-- One of the 61 on-board cells of the Space enum (the OFF sentinel is
modelled separately, as the none case of Space below). -/
abbrev Spc : Type := {p : Fin 9 × Fin 9 // spcOk p}

/-- A Python Space value: either a concrete on-board cell or the OFF
sentinel, modelled as none. -/
abbrev Space : Type := Option Spc

/-- Builds the Space value for 0-based integer coordinates, returning none
exactly when the Python member lookup xs[xi] + ys[yi] of _neighbor in
abalone/utils.py would fail: coordinates out of the 9 by 9 range or off the
hexagon. -/
def toSpc? (x y : Int) : Space :=
  if hx : 0 ≤ x ∧ x < 9 ∧ 0 ≤ y ∧ y < 9 then
    if hp : spcOk (⟨x.toNat, by omega⟩, ⟨y.toNat, by omega⟩) then
      some ⟨(⟨x.toNat, by omega⟩, ⟨y.toNat, by omega⟩), hp⟩
    else none
  else none

/-- Coordinate displacement of each direction, from _neighbor in
abalone/utils.py: change of the row letter index and of the column digit
index. -/
def directionDelta (d : Direction) : Int × Int :=
  match d with
  | .northEast => (1, 1)
  | .east => (0, 1)
  | .southEast => (-1, 0)
  | .southWest => (-1, -1)
  | .west => (0, -1)
  | .northWest => (1, 0)

/-- The neighbor of a cell in a direction, or OFF when it leaves the board,
as computed by _neighbor in abalone/utils.py.  Utils.neighbor looks the same
values up in a table pickled from this rule (spec section 9: the neighbors
table is reproducible from the coordinate rule). -/
def neighbor (s : Spc) (d : Direction) : Space :=
  let dd := directionDelta d
  toSpc? ((s.val.1.val : Int) + dd.1) ((s.val.2.val : Int) + dd.2)

/-- Utils.neighbor lifted to Space arguments: _neighbor returns OFF when
given OFF. -/
def neighborSpace (s : Space) (d : Direction) : Space :=
  match s with
  | none => none
  | some t => neighbor t d

/-- All 61 cells in Space enum definition order (A1..A5, B1..B6, ..., I9):
the iteration order of for space in Space once OFF is skipped. -/
def allSpcs : List Spc :=
  (List.finRange 9).flatMap fun x =>
    (List.finRange 9).filterMap fun y =>
      if h : spcOk (x, y) then some ⟨(x, y), h⟩ else none

theorem mem_allSpcs : ∀ s : Spc, s ∈ allSpcs := by decide

theorem nodup_allSpcs : allSpcs.Nodup := by decide

/-- Fuel-bounded transcription of the while loop of line_to_edge in
abalone/utils.py: collect the spaces from the start in the given direction
until the next neighbor is OFF (the appended OFF is popped by the source, so
the result holds only on-board spaces). -/
def lineToEdgeAux : Nat → Spc → Direction → List Spc
  | 0, s, _ => [s]
  | fuel + 1, s, d =>
    s :: (match neighbor s d with
      | none => []
      | some t => lineToEdgeAux fuel t d)

/-- line_to_edge from abalone/utils.py, restricted to on-board start spaces
(the Python function raises on OFF and its game.py callers only reach it
with on-board spaces).  Fuel 9 suffices: no straight board line is longer
than 9 cells, checked by lineToEdgeAux_stable below. -/
def line_to_edge (s : Spc) (d : Direction) : List Spc :=
  lineToEdgeAux 9 s d

/-- The fuel bound in line_to_edge is slack: the walk always exits through
the OFF case first, so the fuel transcription computes the exact loop. -/
theorem lineToEdgeAux_stable : ∀ (s : Spc) (d : Direction),
    lineToEdgeAux 9 s d = lineToEdgeAux 12 s d := by decide

/-- One direction attempt of line_from_to in abalone/utils.py: append
neighbors of the current space until the target is appended (success) or the
walk leaves the board (this direction yields no line). -/
def lineFromToWalk (tgt : Spc) (d : Direction) : Nat → Spc → List Spc → Option (List Spc)
  | 0, _, _ => none
  | fuel + 1, cur, acc =>
    match neighbor cur d with
    | none => none
    | some t =>
      if t = tgt then some (acc ++ [t])
      else lineFromToWalk tgt d fuel t (acc ++ [t])

/-- Direction loop of line_from_to: directions are tried in enum order and
the first direction whose walk reaches the target wins. -/
def lineFromToDirs (fuel : Nat) (a b : Spc) : List Direction → Option (List Spc × Direction)
  | [] => none
  | d :: ds =>
    match lineFromToWalk b d fuel a [a] with
    | some l => some (l, d)
    | none => lineFromToDirs fuel a b ds

/-- line_from_to from abalone/utils.py restricted to on-board endpoints (the
Python function raises on OFF and its callers check first): the inclusive
straight path from a to b with its direction, or none — the Python
(None, None) result — when no straight line joins them (also when a = b).
Fuel 9 is slack for the walks: every walk follows the neighbor chain of one
direction, which strictly changes a coordinate bounded by 9 and therefore
leaves the board within 8 steps (lineToEdge_len_le below certifies the
bound on the same chains). -/
def line_from_to (a b : Spc) : Option (List Spc × Direction) :=
  lineFromToDirs 9 a b allDirections

theorem lineToEdge_len_le : ∀ (s : Spc) (d : Direction),
    (line_to_edge s d).length ≤ 9 := by decide

/-- The maximal straight path really is maximal: the walk of line_to_edge
always exits through the OFF case, never through fuel exhaustion. -/
theorem lineToEdge_last_off : ∀ (s : Spc) (d : Direction),
    neighbor ((line_to_edge s d).getD ((line_to_edge s d).length - 1) s) d = none := by
  decide

/-- Sum of the two coordinates of a cell: every direction moves it strictly
monotonically, which yields termination and duplicate-freedom of the
straight-line walks. -/
def sumc (s : Spc) : Nat := s.val.1.val + s.val.2.val

/-- Directions whose steps strictly increase sumc; the other three strictly
decrease it. -/
def dirIncr (d : Direction) : Bool :=
  match d with
  | .northEast => true
  | .east => true
  | .northWest => true
  | .southEast => false
  | .southWest => false
  | .west => false

/-- Bool certificate that one neighbor step moves sumc strictly in the
monotone direction of d. -/
def neighborMonoOk (s : Spc) (d : Direction) : Bool :=
  match neighbor s d with
  | none => true
  | some t => if dirIncr d then decide (sumc s < sumc t) else decide (sumc t < sumc s)

theorem neighborMono_all : ∀ (s : Spc) (d : Direction), neighborMonoOk s d = true := by
  decide

/-- The opposite of each direction (geometry helper for the verification,
matching the two-directions-per-axis structure of the Direction enum). -/
def oppositeDir (d : Direction) : Direction :=
  match d with
  | .northEast => .southWest
  | .east => .west
  | .southEast => .northWest
  | .southWest => .northEast
  | .west => .east
  | .northWest => .southEast

/-- Bool certificate of the geometry symmetry property: stepping back from a
neighbor in the opposite direction returns to the start. -/
def neighborInvOk (s : Spc) (d : Direction) : Bool :=
  match neighbor s d with
  | none => true
  | some t => neighbor t (oppositeDir d) == some s

theorem neighborInv_all : ∀ (s : Spc) (d : Direction), neighborInvOk s d = true := by
  decide

/-- The board: cell contents addressed by on-board Space.  It models the
9-row jagged list self.board of game.py addressed exclusively through
space_to_board_indices of abalone/utils.py, which is an injective map from
cells to index pairs, so a function from cells is an equivalent store. -/
abbrev Board : Type := Spc → Marble

/-- Encoding of one marble for the modelled position hash. -/
def marbleCode : Marble → Nat
  | .white => 0
  | .blank => 1
  | .black => 2

/-- Deterministic stand-in for hash(tuple(tuple(l) for l in self.board)) of
game.py: an explicit base-3 encoding of the 61 cells in board order.  The
claims rely only on the position hash being a deterministic function of the
cell contents. -/
def hashBoard (b : Board) : Nat :=
  allSpcs.foldl (fun h s => h * 3 + marbleCode (b s)) 0

/-- The mutable state of Game from game.py touched by the verified
operations: board, side to move, and position hash.  The easyAI framework
bookkeeping (players, nplayer, current_player) and the pickled heuristic
cache are not modelled; no modelled operation reads them. -/
structure Game : Type where
  board : Board
  turn : Player
  boardHash : Nat

/-- marble_of_player from abalone/utils.py. -/
def marble_of_player (p : Player) : Marble :=
  match p with
  | .white => Marble.white
  | .black => Marble.black

/-- Game.not_in_turn_player from game.py: BLACK when WHITE is in turn, else
WHITE. -/
def not_in_turn_player (g : Game) : Player :=
  match g.turn with
  | .white => Player.black
  | .black => Player.white

/-- Game.switch_player from game.py: the super().switch_player() call only
toggles the current-player index of the external easyAI framework, which is
not part of the modelled state; the modelled line is
self.turn = self.not_in_turn_player(). -/
def switch_player (g : Game) : Game :=
  { g with turn := not_in_turn_player g }

/-- Game.set_marble from game.py on a concrete cell (the OFF guard lives at
the Space-level call sites, which error before reaching a cell write). -/
def setMarble (g : Game) (s : Spc) (m : Marble) : Game :=
  { g with board := Function.update g.board s m }

/-- Number of marbles of one color on the board: the row scan of
Game.get_score from game.py tallies exactly the 61 cells. -/
def countMarble (b : Board) (m : Marble) : Nat :=
  allSpcs.countP fun s => b s == m

/-- Game.get_score from game.py: (black count, white count). -/
def get_score (g : Game) : Nat × Nat :=
  (countMarble g.board Marble.black, countMarble g.board Marble.white)

/-- Length of the maximal satisfying prefix of a list: the while-loop
counters of Game.inline_marbles_nums from game.py. -/
def runLen (p : Spc → Bool) : List Spc → Nat
  | [] => 0
  | s :: rest => if p s then runLen p rest + 1 else 0

/-- Game.inline_marbles_nums from game.py: the number of leading own marbles
of the line, then the number of immediately following opponent marbles. -/
def inline_marbles_nums (g : Game) (line : List Spc) : Nat × Nat :=
  let own := runLen (fun s => g.board s == marble_of_player g.turn) line
  let opp := runLen (fun s => g.board s == marble_of_player (not_in_turn_player g)) (line.drop own)
  (own, opp)

/-- The local own_marbles_num of MoveInline._apply and
Game.is_illegal_move_inline: the leading own-marble count of the caboose
line. -/
def ownN (g : Game) (cb : Spc) (d : Direction) : Nat :=
  (inline_marbles_nums g (line_to_edge cb d)).1

/-- The local opp_marbles_num: the following opponent-marble count. -/
def oppN (g : Game) (cb : Spc) (d : Direction) : Nat :=
  (inline_marbles_nums g (line_to_edge cb d)).2

/-- The space line[own_marbles_num] that receives the mover marble on a
successful inline move. -/
def tgtSpc (g : Game) (cb : Spc) (d : Direction) : Spc :=
  (line_to_edge cb d).getD (ownN g cb d) cb

/-- The local push_to of a sumito attempt,
neighbor(line[own_marbles_num + opp_marbles_num - 1], direction); the source
only consults it when opp_marbles_num is positive. -/
def pushToSpace (g : Game) (cb : Spc) (d : Direction) : Space :=
  neighbor ((line_to_edge cb d).getD (ownN g cb d + oppN g cb d - 1) cb) d

/-- An inline move is a sumito push off the board: opponent marbles are
ahead and their push_to space is OFF. -/
def inline_push_off (g : Game) (cb : Spc) (d : Direction) : Bool :=
  decide (0 < oppN g cb d) && (pushToSpace g cb d == none)

theorem ownN_eq (g : Game) (cb : Spc) (d : Direction) :
    ownN g cb d
      = runLen (fun s => g.board s == marble_of_player g.turn) (line_to_edge cb d) := rfl

theorem oppN_eq (g : Game) (cb : Spc) (d : Direction) :
    oppN g cb d
      = runLen (fun s => g.board s == marble_of_player (not_in_turn_player g))
          ((line_to_edge cb d).drop (ownN g cb d)) := rfl

/-- Exceptions raised by the modelled code: IllegalMoveException, the plain
Exception of the OFF-sentinel accessor guards, and the TypeError raised by
iterating a None value. -/
inductive GErr : Type
  | illegal (msg : String)
  | invalidSpace (msg : String)
  | typeErr (msg : String)
deriving DecidableEq, Repr

/-- Result of running a move body: the first uncaught exception if any, the
game state at that point (Python mutates the game in place, so the state
reached before a raise persists), and the change log — the cache field of
the Move object, a list of (space, previous marble) pairs in append
order. -/
structure ApplyOutcome : Type where
  err : Option GErr
  game : Game
  cache : List (Spc × Marble)

/-- Move.save_state from game.py: append (space, current marble at space) to
the change log. -/
def saveState (g : Game) (c : List (Spc × Marble)) (s : Spc) : List (Spc × Marble) :=
  c ++ [(s, g.board s)]

/-- Shared tail of MoveInline._apply from game.py: set the space just past
the mover run to the mover marble and clear the caboose, logging both
previous contents.  Every path reaching this code has own < line.length, so
the List.getD default is never used. -/
def inlineFinish (g : Game) (c : List (Spc × Marble)) (cb : Spc) (line : List Spc)
    (own : Nat) : ApplyOutcome :=
  let tgt := line.getD own cb
  let c1 := saveState g c tgt
  let g1 := setMarble g tgt (marble_of_player g.turn)
  let c2 := saveState g1 c1 cb
  let g2 := setMarble g1 cb Marble.blank
  ⟨none, g2, c2⟩

/-- MoveInline._apply from game.py for an on-board caboose, with the checks,
raises and mutations in source order; the Python locals line,
own_marbles_num, opp_marbles_num and push_to appear as line_to_edge cb d,
ownN, oppN and pushToSpace. -/
def inlineApplyCore (g : Game) (cb : Spc) (d : Direction) : ApplyOutcome :=
  if g.board cb ≠ marble_of_player g.turn then
    ⟨some (.illegal "Only own marbles may be moved"), g, []⟩
  else if ownN g cb d > 3 then
    ⟨some (.illegal "Only lines of up to three marbles may be moved"), g, []⟩
  else if ownN g cb d = (line_to_edge cb d).length then
    ⟨some (.illegal "Own marbles must not be moved off the board"), g, []⟩
  else if oppN g cb d > 0 then
    if oppN g cb d ≥ ownN g cb d then
      ⟨some (.illegal "Only lines that are shorter than the own line can be pushed"), g, []⟩
    else
      match pushToSpace g cb d with
      | some pt =>
        if g.board pt = marble_of_player g.turn then
          ⟨some (.illegal "Marbles must be pushed to an empty space or off the board"), g, []⟩
        else
          inlineFinish (setMarble g pt (marble_of_player (not_in_turn_player g)))
            (saveState g [] pt) cb (line_to_edge cb d) (ownN g cb d)
      | none => inlineFinish g [] cb (line_to_edge cb d) (ownN g cb d)
  else inlineFinish g [] cb (line_to_edge cb d) (ownN g cb d)

/-- Game.is_illegal_move_inline from game.py for an on-board caboose: the
same checks as MoveInline._apply, answering a Bool instead of raising. -/
def isIllegalInlineCore (g : Game) (cb : Spc) (d : Direction) : Bool :=
  if g.board cb ≠ marble_of_player g.turn then
    true
  else if ownN g cb d > 3 then
    true
  else if ownN g cb d = (line_to_edge cb d).length then
    true
  else if oppN g cb d > 0 then
    if oppN g cb d ≥ ownN g cb d then
      true
    else
      match pushToSpace g cb d with
      | some pt =>
        if g.board pt = marble_of_player g.turn then true
        else false
      | none => false
  else false

/-- Game.is_illegal_move_inline from game.py at Space level: get_marble
raises the plain OFF-guard Exception when the caboose is the OFF
sentinel. -/
def is_illegal_move_inline (g : Game) (caboose : Space) (d : Direction) : Except GErr Bool :=
  match caboose with
  | none => .error (.invalidSpace "Cannot get state of Space OFF")
  | some cb => .ok (isIllegalInlineCore g cb d)

/-- MoveInline._apply from game.py at Space level: with an OFF caboose,
game.get_marble raises the plain OFF-guard Exception before any other
work. -/
def inlineApply (caboose : Space) (d : Direction) (g : Game) : ApplyOutcome :=
  match caboose with
  | none => ⟨some (.invalidSpace "Cannot get state of Space OFF"), g, []⟩
  | some cb => inlineApplyCore g cb d

/-- Check loop of MoveBroadside._apply from game.py: every marble of the
line must be the mover marble and its destination must be on-board and
empty; the first violated check raises. -/
def broadsideCheckLoop (g : Game) (d : Direction) : List Spc → Option GErr
  | [] => none
  | m :: rest =>
    if g.board m ≠ marble_of_player g.turn then
      some (.illegal "Only own marbles may be moved")
    else
      match neighbor m d with
      | none => some (.illegal "With a broadside move, marbles can only be moved to empty spaces")
      | some t =>
        if g.board t ≠ Marble.blank then
          some (.illegal "With a broadside move, marbles can only be moved to empty spaces")
        else broadsideCheckLoop g d rest

/-- Mutation loop of MoveBroadside._apply from game.py: save and clear each
source, then save and set its destination, where the save of a destination
reads the current partly mutated board exactly as save_state does.  The none
neighbor case mirrors save_state raising the OFF-guard Exception of
get_marble; it is unreachable once the check loop has passed. -/
def broadsideMutateLoop (g : Game) (c : List (Spc × Marble)) (d : Direction) :
    List Spc → ApplyOutcome
  | [] => ⟨none, g, c⟩
  | m :: rest =>
    let c1 := saveState g c m
    let g1 := setMarble g m Marble.blank
    match neighbor m d with
    | none => ⟨some (.invalidSpace "Cannot get state of Space OFF"), g1, c1⟩
    | some t =>
      let c2 := saveState g1 c1 t
      let g2 := setMarble g1 t (marble_of_player g1.turn)
      broadsideMutateLoop g2 c2 d rest

/-- MoveBroadside._apply from game.py, with the checks, raises and mutations
in source order. -/
def broadsideApply (b0 b1 : Space) (d : Direction) (g : Game) : ApplyOutcome :=
  match b0, b1 with
  | none, _ => ⟨some (.illegal "Elements of boundaries must not be Space OFF"), g, []⟩
  | some _, none => ⟨some (.illegal "Elements of boundaries must not be Space OFF"), g, []⟩
  | some s0, some s1 =>
    match line_from_to s0 s1 with
    | none =>
      ⟨some (.illegal "Only two or three neighboring marbles may be moved with a broadside move"),
        g, []⟩
    | some (marbles, d1) =>
      if ¬(marbles.length = 2 ∨ marbles.length = 3) then
        ⟨some (.illegal "Only two or three neighboring marbles may be moved with a broadside move"),
          g, []⟩
      else if d = d1 ∨ (line_from_to s1 s0).map (fun x => x.2) = some d then
        ⟨some (.illegal "The direction of a broadside move must be sideways"), g, []⟩
      else
        match broadsideCheckLoop g d marbles with
        | some e => ⟨some e, g, []⟩
        | none => broadsideMutateLoop g [] d marbles

/-- Check loop of Game.is_illegal_move_broadside from game.py, answering
true at the first violated check. -/
def broadsideIllegalLoop (g : Game) (d : Direction) : List Spc → Bool
  | [] => false
  | m :: rest =>
    if g.board m ≠ marble_of_player g.turn then
      true
    else
      match neighbor m d with
      | none => true
      | some t =>
        if g.board t ≠ Marble.blank then true
        else broadsideIllegalLoop g d rest

/-- Game.is_illegal_move_broadside from game.py: the same checks as
MoveBroadside._apply, answering a Bool.  It never raises: OFF boundaries are
reported as illegal before any accessor call, and every later access is
on-board. -/
def is_illegal_move_broadside (g : Game) (b0 b1 : Space) (d : Direction) : Bool :=
  match b0, b1 with
  | none, _ => true
  | some _, none => true
  | some s0, some s1 =>
    match line_from_to s0 s1 with
    | none => true
    | some (marbles, d1) =>
      if ¬(marbles.length = 2 ∨ marbles.length = 3) then true
      else if d = d1 ∨ (line_from_to s1 s0).map (fun x => x.2) = some d then true
      else broadsideIllegalLoop g d marbles

/-- Outcome of Move.apply from game.py: error channel, resulting game, and
the mutable fields of the Move object — the change log and the board hash
captured before _apply runs. -/
structure FullOutcome : Type where
  err : Option GErr
  game : Game
  cache : List (Spc × Marble)
  savedHash : Nat

/-- Move.apply from game.py for an inline move: capture the hash, run
_apply, and refresh the game hash only when no exception escaped (a raise
inside _apply propagates before the hash update line runs). -/
def applyMoveInline (caboose : Space) (d : Direction) (g : Game) : FullOutcome :=
  let saved := g.boardHash
  let r := inlineApply caboose d g
  match r.err with
  | some e => ⟨some e, r.game, r.cache, saved⟩
  | none => ⟨none, { r.game with boardHash := hashBoard r.game.board }, r.cache, saved⟩

/-- Move.apply from game.py for a broadside move. -/
def applyMoveBroadside (b0 b1 : Space) (d : Direction) (g : Game) : FullOutcome :=
  let saved := g.boardHash
  let r := broadsideApply b0 b1 d g
  match r.err with
  | some e => ⟨some e, r.game, r.cache, saved⟩
  | none => ⟨none, { r.game with boardHash := hashBoard r.game.board }, r.cache, saved⟩

/-- The board after Move.undo from game.py writes back every logged
(space, marble) pair in log order. -/
def undoBoard (c : List (Spc × Marble)) (b : Board) : Board :=
  c.foldl (fun b2 p => Function.update b2 p.1 p.2) b

/-- Move.undo from game.py: restore every logged pair, then restore the
board hash captured by apply. -/
def undoMove (o : FullOutcome) : Game :=
  { o.game with board := undoBoard o.cache o.game.board, boardHash := o.savedHash }

/-- A move argument of Game.make_move from game.py: inline (one caboose
Space) or broadside (two boundary Spaces), as dispatched by create_move and
Game.is_illegal_move. -/
inductive MoveDesc : Type
  | inline (caboose : Space) (d : Direction)
  | broadside (b0 b1 : Space) (d : Direction)

/-- Game.make_move from game.py: both branches (a Move instance, or a
(marbles, direction) pair passed through create_move) just call Move.apply
on the game; the turn owner is not touched. -/
def make_move (g : Game) (m : MoveDesc) : FullOutcome :=
  match m with
  | .inline cb d => applyMoveInline cb d g
  | .broadside b0 b1 d => applyMoveBroadside b0 b1 d g

/-- Game.unmake_move from game.py: Move.undo on the game. -/
def unmake_move (o : FullOutcome) : Game :=
  undoMove o

/-- A candidate yielded by Game.generate_marble_lines from game.py: one
space, or a pair of boundary spaces. -/
inductive MarbleLine : Type
  | single (s : Spc)
  | pair (a b : Spc)
deriving DecidableEq, Repr

/-- Inner loop of Game.generate_marble_lines from game.py: the runs of
length 2 and 3 grown from a space along one scan direction. -/
def pairsInDir (g : Game) (p : Player) (s : Spc) (d : Direction) : List MarbleLine :=
  match neighbor s d with
  | none => []
  | some n1 =>
    if g.board n1 = marble_of_player p then
      .pair s n1 ::
        (match neighbor n1 d with
          | none => []
          | some n2 => if g.board n2 = marble_of_player p then [.pair s n2] else [])
    else []

/-- Game.generate_marble_lines from game.py: for every board space holding
the marble of the given player, scanned in Space enum order with OFF
skipped, yield the single space and the runs along the three scan
directions NW, NE, E. -/
def generate_marble_lines (g : Game) (p : Player) : List MarbleLine :=
  allSpcs.flatMap fun s =>
    if g.board s ≠ marble_of_player p then []
    else
      .single s ::
        ([Direction.northWest, Direction.northEast, Direction.east].flatMap
          (pairsInDir g p s))

/-- Game.generate_own_marble_lines from game.py: the body evaluates
self.generate_marble_lines(self.turn) but contains no return and no yield
statement, so the call result is discarded and the Python function returns
None. -/
def generate_own_marble_lines (g : Game) : Option (List MarbleLine) :=
  let _ := generate_marble_lines g g.turn
  none

/-- Game.is_illegal_move from game.py dispatched on the candidate shape.
Generated candidates hold on-board spaces, so the inline predicate cannot
raise here. -/
def isIllegalMoveML (g : Game) (m : MarbleLine) (d : Direction) : Bool :=
  match m with
  | .single s => isIllegalInlineCore g s d
  | .pair a b => is_illegal_move_broadside g (some a) (some b) d

/-- Game.generate_legal_moves and Game.possible_moves from game.py:
iterating over generate_own_marble_lines() iterates over None, which raises
TypeError; were a candidate list produced, each candidate and direction
passing the legality predicate would become one generated move, in scan
order times direction enum order. -/
def possible_moves (g : Game) : Except GErr (List (MarbleLine × Direction)) :=
  match generate_own_marble_lines g with
  | none => .error (.typeErr "NoneType object is not iterable")
  | some ls =>
    .ok (ls.flatMap fun m =>
      allDirections.filterMap fun d =>
        if isIllegalMoveML g m d then none else some (m, d))

/-- Row letter ordinal ord(name[0]) of a cell (65 is A). -/
def rowOrd (s : Spc) : Int := 65 + (s.val.1.val : Int)

/-- Column digit ordinal ord(name[1]) of a cell (49 is 1). -/
def colOrd (s : Spc) : Int := 49 + (s.val.2.val : Int)

/-- Column number int(name[1]) of a cell. -/
def colNum (s : Spc) : Int := 1 + (s.val.2.val : Int)

/-- Fuel-bounded transcription of distance from abalone/utils.py.  The
three base cases (same row, same column, same diagonal) return the direct
difference of ordinals; otherwise the source names an intermediate space on
the row of the higher endpoint and recurses through it.  The name lookup
Space[...] raises KeyError when the constructed name is not an enum member
(column number out of 1..9, or off the hexagon), modelled as none.  Fuel 4
is slack: the recursion has depth 1 wherever the lookup succeeds, certified
by distanceFuel_stable. -/
def distanceFuel : Nat → Spc → Spc → Option Int
  | 0, _, _ => none
  | fuel + 1, a, b =>
    if rowOrd a = rowOrd b then some |colOrd a - colOrd b|
    else if colOrd a = colOrd b then some |rowOrd a - rowOrd b|
    else if rowOrd a - rowOrd b = colOrd a - colOrd b then some |rowOrd a - rowOrd b|
    else
      let top := if rowOrd a > rowOrd b then a else b
      let bottom := if rowOrd a > rowOrd b then b else a
      let tmpCol : Int :=
        if colOrd top < colOrd bottom then colNum bottom
        else colNum bottom + (rowOrd top - rowOrd bottom)
      match toSpc? (top.val.1.val : Int) (tmpCol - 1) with
      | none => none
      | some tmp => do
        let d1 ← distanceFuel fuel a tmp
        let d2 ← distanceFuel fuel tmp b
        pure (d1 + d2)

/-- distance from abalone/utils.py on two on-board spaces; none models the
KeyError raised when the intermediate name lookup fails. -/
def distance (a b : Spc) : Option Int :=
  distanceFuel 4 a b

/-- The center cell E5 of the board. -/
def spE5 : Spc := ⟨(4, 4), by decide⟩

/-- distance_from_center from abalone/utils.py. -/
def distance_from_center (s : Spc) : Option Int :=
  distance s spE5

/-- Game.count_neighbors from game.py: classify the six neighbors of a
space relative to its own content; the get_marble call on an OFF neighbor
raises and the bare except skips that direction. -/
def count_neighbors (g : Game) (s : Spc) : Nat × Nat :=
  let marble := g.board s
  allDirections.foldl
    (fun cnt d =>
      match neighbor s d with
      | none => cnt
      | some t =>
        let nm := g.board t
        if nm ≠ Marble.blank ∧ nm = marble then (cnt.1 + 1, cnt.2)
        else if nm ≠ Marble.blank ∧ nm ≠ marble then (cnt.1, cnt.2 + 1)
        else cnt)
    (0, 0)

/-- Game._is_isolated from game.py: no friendly neighbor and at least one
enemy neighbor. -/
def isIsolated (g : Game) (s : Spc) : Bool :=
  decide ((count_neighbors g s).1 = 0) && decide (1 ≤ (count_neighbors g s).2)

/-- The heuristic_weights mapping handed to Game.__init__ (keys
count_threes, count_isolated, distance_center).  Python float weights are
modelled as rationals; the only claim about this code concerns the division
guard, not rounding. -/
structure HeuristicWeights : Type where
  countThrees : ℚ
  countIsolated : ℚ
  distanceCenter : ℚ

/-- Sum of distance_from_center over a list of spaces, none if any distance
computation raises (it never does from an on-board space, but the model
keeps the failure channel of the source). -/
def sumDistCenter : List Spc → Option Int
  | [] => some 0
  | s :: rest => do
    let d ← distance_from_center s
    let r ← sumDistCenter rest
    pure (d + r)

/-- Game._heuristic_score from game.py for one player: the loop over the
spaces holding the players marble accumulates total_marbles,
distance_center and count_isolated, and recomputes count_threes identically
in every iteration, so count_threes equals one computation over the board;
then distance_center is divided by total_marbles — Python raises
ZeroDivisionError when the player has no marbles on the board, modelled as
none — and the weighted combination is returned. -/
def heuristic_score_for (w : HeuristicWeights) (g : Game) (p : Player) : Option ℚ :=
  let own := allSpcs.filter fun s => g.board s == marble_of_player p
  let countThrees :=
    (generate_marble_lines g p).countP fun t =>
      match t with
      | .pair a b => distance a b == some 2
      | .single _ => false
  let countIsolated := own.countP fun s => isIsolated g s
  match sumDistCenter own with
  | none => none
  | some dsum =>
    if own.length = 0 then none
    else
      some ((countThrees : ℚ) * w.countThrees
        - (countIsolated : ℚ) * w.countIsolated
        - ((dsum : ℚ) / (own.length : ℚ)) * w.distanceCenter)

/-- Game.heuristic_score from game.py: black adjustment minus white
adjustment (none as soon as either side raises). -/
def heuristic_score (w : HeuristicWeights) (g : Game) : Option ℚ := do
  let b ← heuristic_score_for w g Player.black
  let wh ← heuristic_score_for w g Player.white
  pure (b - wh)

/-- get_winner from abalone/utils.py: when 8 occurs in the score pair,
white wins if the black count is 8, else black wins; otherwise there is no
winner yet. -/
def get_winner (score : Nat × Nat) : Option Player :=
  if score.1 = 8 ∨ score.2 = 8 then
    some (if score.1 = 8 then Player.white else Player.black)
  else none

/-- InitialPosition.DEFAULT from abalone/enums.py as cell contents: rows A
and B black, C3..C5 black, G5..G7 white, rows H and I white, all other
cells blank (the enum stores the same data as a jagged row list with row I
first). -/
def defaultBoard : Board := fun s =>
  let x := s.val.1.val
  let y := s.val.2.val
  if x ≤ 1 then Marble.black
  else if x = 2 then (if 2 ≤ y ∧ y ≤ 4 then Marble.black else Marble.blank)
  else if x ≤ 5 then Marble.blank
  else if x = 6 then (if 4 ≤ y ∧ y ≤ 6 then Marble.white else Marble.blank)
  else Marble.white

/-- Game.__init__ from game.py with InitialPosition.DEFAULT and the default
first_turn of Player.BLACK. -/
def defaultGame : Game :=
  { board := defaultBoard, turn := Player.black, boardHash := hashBoard defaultBoard }

/-- The cell A1 (row A, column 1). -/
def spA1 : Spc := ⟨(0, 0), by decide⟩

/-- The cell B2. -/
def spB2 : Spc := ⟨(1, 1), by decide⟩

/-- The cell C3. -/
def spC3 : Spc := ⟨(2, 2), by decide⟩

/-- The cell D4. -/
def spD4 : Spc := ⟨(3, 3), by decide⟩

/-- The cell I9. -/
def spI9 : Spc := ⟨(8, 8), by decide⟩

/-- The cell A5. -/
def spA5 : Spc := ⟨(0, 4), by decide⟩

/-- One neighbor step in direction d. -/
def stepRel (d : Direction) (u v : Spc) : Prop :=
  neighbor u d = some v

/-- Strict monotonicity order of direction d on the coordinate sum. -/
def monoRel (d : Direction) (u v : Spc) : Prop :=
  if dirIncr d then sumc u < sumc v else sumc v < sumc u

theorem monoRel_of_step {d : Direction} {u v : Spc} (h : stepRel d u v) :
    monoRel d u v := by
  have hm := neighborMono_all u d
  unfold neighborMonoOk at hm
  rw [h] at hm
  unfold monoRel
  rcases hi : dirIncr d with _ | _ <;> rw [hi] at hm <;> simpa using hm

theorem monoRel_trans {d : Direction} {u v w : Spc}
    (h1 : monoRel d u v) (h2 : monoRel d v w) : monoRel d u w := by
  unfold monoRel at h1 h2 ⊢
  rcases hi : dirIncr d with _ | _ <;> rw [hi] at h1 h2 <;> simp_all <;> omega

theorem monoRel_ne {d : Direction} {u v : Spc} (h : monoRel d u v) : u ≠ v := by
  unfold monoRel at h
  intro he
  subst he
  rcases dirIncr d with _ | _ <;> simp_all

/-- Each direction step is injective: stepping back in the opposite
direction recovers the start. -/
theorem neighbor_inj {d : Direction} {s t u : Spc}
    (hs : neighbor s d = some u) (ht : neighbor t d = some u) : s = t := by
  have h1 := neighborInv_all s d
  have h2 := neighborInv_all t d
  unfold neighborInvOk at h1 h2
  rw [hs] at h1
  rw [ht] at h2
  simp only [beq_iff_eq] at h1 h2
  rw [h1] at h2
  exact Option.some_injective _ h2

theorem lineToEdgeAux_headD (fuel : Nat) (s : Spc) (d : Direction) :
    (lineToEdgeAux fuel s d).head? = some s := by
  cases fuel with
  | zero => rfl
  | succ n => simp [lineToEdgeAux]

theorem lineToEdgeAux_chain (fuel : Nat) :
    ∀ (s : Spc) (d : Direction), List.Chain' (stepRel d) (lineToEdgeAux fuel s d) := by
  induction fuel with
  | zero => intro s d; simp [lineToEdgeAux]
  | succ n ih =>
    intro s d
    simp only [lineToEdgeAux]
    rcases hn : neighbor s d with _ | t
    · simp
    · rw [List.chain'_cons']
      refine ⟨?_, ih t d⟩
      intro y hy
      rw [lineToEdgeAux_headD] at hy
      simp only [Option.mem_def, Option.some_inj] at hy
      subst hy
      exact hn

theorem lineToEdge_chain (s : Spc) (d : Direction) :
    List.Chain' (stepRel d) (line_to_edge s d) :=
  lineToEdgeAux_chain 9 s d

theorem chain_pairwise_mono {d : Direction} {l : List Spc}
    (h : List.Chain' (stepRel d) l) : List.Pairwise (monoRel d) l := by
  have h2 : List.Chain' (monoRel d) l := List.Chain'.imp (fun a b => monoRel_of_step) h
  haveI : IsTrans Spc (monoRel d) := ⟨fun a b c => monoRel_trans⟩
  exact List.chain'_iff_pairwise.mp h2

theorem chain_nodup {d : Direction} {l : List Spc}
    (h : List.Chain' (stepRel d) l) : l.Nodup :=
  (chain_pairwise_mono h).imp (fun hr => monoRel_ne hr)

theorem lineToEdge_nodup (s : Spc) (d : Direction) : (line_to_edge s d).Nodup :=
  chain_nodup (lineToEdge_chain s d)

theorem lineToEdge_ne_nil (s : Spc) (d : Direction) : line_to_edge s d ≠ [] := by
  intro h
  have := lineToEdgeAux_headD 9 s d
  rw [show lineToEdgeAux 9 s d = line_to_edge s d from rfl, h] at this
  simp at this

theorem lineToEdge_getD_zero (s : Spc) (d : Direction) (dflt : Spc) :
    (line_to_edge s d).getD 0 dflt = s := by
  have hh := lineToEdgeAux_headD 9 s d
  rcases hl : line_to_edge s d with _ | ⟨a, rest⟩
  · exact absurd hl (lineToEdge_ne_nil s d)
  · rw [show lineToEdgeAux 9 s d = line_to_edge s d from rfl, hl] at hh
    simp only [List.head?_cons, Option.some_inj] at hh
    simp [hh]

/-- Consecutive elements of a line are neighbor steps. -/
theorem chain_getD {d : Direction} {l : List Spc} (h : List.Chain' (stepRel d) l)
    {i : Nat} (hi : i + 1 < l.length) (dflt : Spc) :
    neighbor (l.getD i dflt) d = some (l.getD (i + 1) dflt) := by
  have h2 := List.chain'_iff_get.mp h i (by omega)
  unfold stepRel at h2
  rw [List.getD_eq_getElem l dflt (by omega), List.getD_eq_getElem l dflt hi]
  simpa [List.get_eq_getElem] using h2

/-- Elements of a line at increasing positions are strictly ordered by the
direction monotone order. -/
theorem pairwise_getD {d : Direction} {l : List Spc} (h : List.Chain' (stepRel d) l)
    {i j : Nat} (hij : i < j) (hj : j < l.length) (dflt : Spc) :
    monoRel d (l.getD i dflt) (l.getD j dflt) := by
  have hp := chain_pairwise_mono h
  have h2 := List.pairwise_iff_get.mp hp ⟨i, by omega⟩ ⟨j, hj⟩ (by simpa using hij)
  rw [List.getD_eq_getElem l dflt (by omega), List.getD_eq_getElem l dflt hj]
  simpa [List.get_eq_getElem] using h2

theorem nodup_getD_ne {l : List Spc} (h : l.Nodup) {i j : Nat}
    (hi : i < l.length) (hj : j < l.length) (hij : i ≠ j) (dflt : Spc) :
    l.getD i dflt ≠ l.getD j dflt := by
  rw [List.getD_eq_getElem l dflt hi, List.getD_eq_getElem l dflt hj]
  intro he
  exact hij ((List.Nodup.getElem_inj_iff h).mp he)

/-- The walk of line_from_to extends a neighbor chain: whenever it succeeds,
the produced path is a neighbor chain and therefore duplicate-free. -/
theorem lineFromToWalk_chain {b : Spc} {d : Direction} :
    ∀ (fuel : Nat) (cur : Spc) (acc : List Spc) (l : List Spc),
      List.Chain' (stepRel d) acc → acc.getLast? = some cur →
      lineFromToWalk b d fuel cur acc = some l → List.Chain' (stepRel d) l := by
  intro fuel
  induction fuel with
  | zero => intro cur acc l _ _ h; simp [lineFromToWalk] at h
  | succ n ih =>
    intro cur acc l hch hlast h
    simp only [lineFromToWalk] at h
    split at h
    · simp at h
    · rename_i t hn
      have hch2 : List.Chain' (stepRel d) (acc ++ [t]) := by
        rw [List.chain'_append]
        refine ⟨hch, List.chain'_singleton t, ?_⟩
        intro x hx y hy
        rw [hlast] at hx
        simp only [Option.mem_def, Option.some_inj] at hx
        simp only [List.head?_cons, Option.mem_def, Option.some_inj] at hy
        subst hx; subst hy
        exact hn
      by_cases ht : t = b
      · rw [if_pos ht] at h
        simp only [Option.some_inj] at h
        subst h
        exact hch2
      · rw [if_neg ht] at h
        exact ih t (acc ++ [t]) l hch2 (by simp) h

theorem lineFromToDirs_nodup {a b : Spc} {l : List Spc} {d : Direction} :
    ∀ ds : List Direction, lineFromToDirs 9 a b ds = some (l, d) → l.Nodup := by
  intro ds
  induction ds with
  | nil => intro h; simp [lineFromToDirs] at h
  | cons d0 rest ih =>
    intro h
    simp only [lineFromToDirs] at h
    split at h
    · rename_i l0 hw
      simp only [Option.some_inj, Prod.mk.injEq] at h
      obtain ⟨hl, hd⟩ := h
      subst hl
      exact chain_nodup
        (lineFromToWalk_chain 9 a [a] l0 (List.chain'_singleton a) rfl hw)
    · exact ih h

theorem lineFromTo_nodup {a b : Spc} {l : List Spc} {d : Direction}
    (h : line_from_to a b = some (l, d)) : l.Nodup :=
  lineFromToDirs_nodup allDirections h

theorem runLen_le (p : Spc → Bool) : ∀ l : List Spc, runLen p l ≤ l.length := by
  intro l
  induction l with
  | nil => simp [runLen]
  | cons s rest ih =>
    rw [runLen]
    by_cases hp : p s
    · rw [if_pos hp]
      exact Nat.succ_le_succ ih
    · rw [if_neg hp]
      exact Nat.zero_le _

theorem runLen_getD_true (p : Spc → Bool) (dflt : Spc) :
    ∀ (l : List Spc) (i : Nat), i < runLen p l → p (l.getD i dflt) = true := by
  intro l
  induction l with
  | nil => intro i h; simp [runLen] at h
  | cons s rest ih =>
    intro i h
    simp only [runLen] at h
    by_cases hp : p s
    · rw [if_pos hp] at h
      cases i with
      | zero => simpa using hp
      | succ j => exact ih j (by omega)
    · rw [if_neg hp] at h
      omega

theorem runLen_getD_false (p : Spc → Bool) (dflt : Spc) :
    ∀ l : List Spc, runLen p l < l.length → p (l.getD (runLen p l) dflt) = false := by
  intro l
  induction l with
  | nil => intro h; simp [runLen] at h
  | cons s rest ih =>
    intro h
    simp only [runLen] at h ⊢
    by_cases hp : p s
    · rw [if_pos hp] at h ⊢
      simpa using ih (by simpa using h)
    · rw [if_neg hp] at h ⊢
      simpa using hp

theorem getD_drop (dflt : Spc) :
    ∀ (l : List Spc) (n i : Nat), (l.drop n).getD i dflt = l.getD (n + i) dflt := by
  intro l
  induction l with
  | nil => intro n i; simp
  | cons s rest ih =>
    intro n i
    cases n with
    | zero => simp
    | succ m =>
      simp only [List.drop_succ_cons]
      rw [ih m i]
      have : m + 1 + i = (m + i) + 1 := by omega
      rw [this]
      rfl

theorem undoBoard_nil (b : Board) : undoBoard [] b = b := rfl

theorem undoBoard_cons (s : Spc) (m : Marble) (c : List (Spc × Marble)) (b : Board) :
    undoBoard ((s, m) :: c) b = undoBoard c (Function.update b s m) := rfl

/-- Writing back the original content of a duplicate-free set of cells onto
any board that agrees with the original outside those cells restores the
original board: the heart of the undo proofs. -/
theorem undoBoard_restores (b : Board) :
    ∀ (ss : List Spc) (b2 : Board), ss.Nodup → (∀ x, x ∉ ss → b2 x = b x) →
      undoBoard (ss.map fun s => (s, b s)) b2 = b := by
  intro ss
  induction ss with
  | nil =>
    intro b2 _ hout
    funext x
    exact hout x (by simp)
  | cons s rest ih =>
    intro b2 hnd hout
    simp only [List.map_cons, undoBoard_cons]
    refine ih (Function.update b2 s (b s)) (by simpa using hnd.of_cons) ?_
    intro x hx
    by_cases hxs : x = s
    · subst hxs
      exact Function.update_same x (b x) b2
    · rw [Function.update_noteq hxs]
      refine hout x ?_
      simp only [List.mem_cons, not_or]
      exact ⟨hxs, hx⟩

theorem countP_update (b : Board) (s : Spc) (v m : Marble) :
    ∀ l : List Spc, l.Nodup → s ∈ l →
      (l.countP fun t => Function.update b s v t == m) + (if b s = m then 1 else 0)
        = (l.countP fun t => b t == m) + (if v = m then 1 else 0) := by
  intro l
  induction l with
  | nil => intro _ h; simp at h
  | cons a rest ih =>
    intro hnd hmem
    by_cases has : a = s
    · subst has
      have hns : a ∉ rest := (List.nodup_cons.mp hnd).1
      have hrest : (rest.countP fun t => Function.update b a v t == m)
          = rest.countP fun t => b t == m := by
        refine List.countP_congr ?_
        intro x hx
        have hxa : x ≠ a := fun he => hns (he ▸ hx)
        rw [Function.update_noteq hxa]
      rw [List.countP_cons, List.countP_cons, hrest]
      simp only [Function.update_same, beq_iff_eq]
      by_cases hv : v = m <;> by_cases hb : b a = m <;> simp [hv, hb]
    · have hmem2 : s ∈ rest := by
        rcases List.mem_cons.mp hmem with h | h
        · exact absurd h.symm has
        · exact h
      have hna : Function.update b s v a = b a :=
        Function.update_noteq has v b
      rw [List.countP_cons, List.countP_cons, hna]
      have := ih (List.nodup_cons.mp hnd).2 hmem2
      omega

/-- Marble count after one cell write, in additive form. -/
theorem countMarble_update (b : Board) (s : Spc) (v m : Marble) :
    countMarble (Function.update b s v) m + (if b s = m then 1 else 0)
      = countMarble b m + (if v = m then 1 else 0) :=
  countP_update b s v m allSpcs nodup_allSpcs (mem_allSpcs s)

theorem marble_of_player_ne_blank (p : Player) : marble_of_player p ≠ Marble.blank := by
  cases p <;> simp [marble_of_player]

theorem marble_blank_of_ne (g : Game) (m : Marble)
    (h1 : m ≠ marble_of_player g.turn)
    (h2 : m ≠ marble_of_player (not_in_turn_player g)) : m = Marble.blank := by
  cases hg : g.turn <;> cases m <;>
    simp_all [marble_of_player, not_in_turn_player]

theorem marble_of_ne_players (g : Game) :
    marble_of_player g.turn ≠ marble_of_player (not_in_turn_player g) := by
  cases hg : g.turn <;> simp [marble_of_player, not_in_turn_player, hg]

theorem setMarble_turn (g : Game) (s : Spc) (m : Marble) :
    (setMarble g s m).turn = g.turn := rfl

/-- Full case analysis of MoveInline._apply against
Game.is_illegal_move_inline on an on-board caboose: either the move is
illegal (the apply raises IllegalMoveException, the predicate answers true,
and the game is untouched with an empty log), or the predicate answers false
and the apply succeeds with one of the two explicit result shapes — the
plain advance writing the head target and clearing the caboose, or the
sumito push additionally writing the push_to space — whose logs record the
pre-move content of exactly the written cells. -/
theorem inlineCore_cases (g : Game) (cb : Spc) (d : Direction) :
    ((∃ m, (inlineApplyCore g cb d).err = some (GErr.illegal m))
      ∧ isIllegalInlineCore g cb d = true
      ∧ (inlineApplyCore g cb d).game = g ∧ (inlineApplyCore g cb d).cache = [])
    ∨
    (isIllegalInlineCore g cb d = false
      ∧ g.board cb = marble_of_player g.turn
      ∧ 1 ≤ ownN g cb d
      ∧ ownN g cb d < (line_to_edge cb d).length
      ∧ cb ≠ tgtSpc g cb d
      ∧ (oppN g cb d = 0 → g.board (tgtSpc g cb d) = Marble.blank)
      ∧ (0 < oppN g cb d →
          g.board (tgtSpc g cb d) = marble_of_player (not_in_turn_player g))
      ∧ (((oppN g cb d = 0 ∨ pushToSpace g cb d = none)
          ∧ inlineApplyCore g cb d =
            ⟨none,
              setMarble (setMarble g (tgtSpc g cb d) (marble_of_player g.turn)) cb Marble.blank,
              [(tgtSpc g cb d, g.board (tgtSpc g cb d)), (cb, g.board cb)]⟩)
        ∨ (∃ pt, pushToSpace g cb d = some pt
            ∧ 0 < oppN g cb d
            ∧ g.board pt = Marble.blank
            ∧ pt ≠ tgtSpc g cb d ∧ pt ≠ cb
            ∧ inlineApplyCore g cb d =
              ⟨none,
                setMarble (setMarble
                  (setMarble g pt (marble_of_player (not_in_turn_player g)))
                  (tgtSpc g cb d) (marble_of_player g.turn)) cb Marble.blank,
                [(pt, g.board pt), (tgtSpc g cb d, g.board (tgtSpc g cb d)),
                  (cb, g.board cb)]⟩))) := by
  by_cases h1 : g.board cb ≠ marble_of_player g.turn
  case pos =>
    unfold inlineApplyCore isIllegalInlineCore
    rw [if_pos h1, if_pos h1]
    exact Or.inl ⟨⟨_, rfl⟩, rfl, rfl, rfl⟩
  case neg =>
  have hcb : g.board cb = marble_of_player g.turn := not_not.mp h1
  by_cases h2 : ownN g cb d > 3
  case pos =>
    unfold inlineApplyCore isIllegalInlineCore
    rw [if_neg h1, if_neg h1, if_pos h2, if_pos h2]
    exact Or.inl ⟨⟨_, rfl⟩, rfl, rfl, rfl⟩
  case neg =>
  by_cases h3 : ownN g cb d = (line_to_edge cb d).length
  case pos =>
    unfold inlineApplyCore isIllegalInlineCore
    rw [if_neg h1, if_neg h1, if_neg h2, if_neg h2, if_pos h3, if_pos h3]
    exact Or.inl ⟨⟨_, rfl⟩, rfl, rfl, rfl⟩
  case neg =>
  -- facts shared by every success path
  have howlt : ownN g cb d < (line_to_edge cb d).length := by
    have hle := runLen_le (fun s => g.board s == marble_of_player g.turn) (line_to_edge cb d)
    rw [← ownN_eq] at hle
    omega
  have how1 : 1 ≤ ownN g cb d := by
    by_contra hno
    have h0 : ownN g cb d = 0 := by omega
    have hf := runLen_getD_false (fun s => g.board s == marble_of_player g.turn) cb
      (line_to_edge cb d) (by rw [← ownN_eq]; omega)
    rw [← ownN_eq, h0, lineToEdge_getD_zero cb d cb] at hf
    simp [hcb] at hf
  have hcbtgt : cb ≠ tgtSpc g cb d := by
    have hne := nodup_getD_ne (lineToEdge_nodup cb d)
      (show 0 < (line_to_edge cb d).length by omega) howlt
      (show (0 : Nat) ≠ ownN g cb d by omega) cb
    rw [lineToEdge_getD_zero cb d cb] at hne
    exact hne
  have htgt_not_own : g.board (tgtSpc g cb d) ≠ marble_of_player g.turn := by
    have hf := runLen_getD_false (fun s => g.board s == marble_of_player g.turn) cb
      (line_to_edge cb d) (by rw [← ownN_eq]; omega)
    rw [← ownN_eq] at hf
    simpa [tgtSpc] using hf
  have hlen_drop : ((line_to_edge cb d).drop (ownN g cb d)).length
      = (line_to_edge cb d).length - ownN g cb d := List.length_drop _ _
  have hopp_le : oppN g cb d ≤ (line_to_edge cb d).length - ownN g cb d := by
    have hq := runLen_le (fun s => g.board s == marble_of_player (not_in_turn_player g))
      ((line_to_edge cb d).drop (ownN g cb d))
    rw [← oppN_eq, hlen_drop] at hq
    exact hq
  have htgt0 : oppN g cb d = 0 → g.board (tgtSpc g cb d) = Marble.blank := by
    intro h0
    refine marble_blank_of_ne g _ htgt_not_own ?_
    have hf := runLen_getD_false (fun s => g.board s == marble_of_player (not_in_turn_player g))
      cb ((line_to_edge cb d).drop (ownN g cb d))
      (by rw [← oppN_eq, hlen_drop]; omega)
    rw [← oppN_eq, h0, getD_drop, Nat.add_zero] at hf
    simpa [tgtSpc] using hf
  have htgtpos : 0 < oppN g cb d →
      g.board (tgtSpc g cb d) = marble_of_player (not_in_turn_player g) := by
    intro hpos
    have ht := runLen_getD_true (fun s => g.board s == marble_of_player (not_in_turn_player g))
      cb ((line_to_edge cb d).drop (ownN g cb d)) 0 (by rw [← oppN_eq]; omega)
    rw [getD_drop, Nat.add_zero] at ht
    simpa [tgtSpc] using ht
  by_cases h4 : oppN g cb d > 0
  case pos =>
    by_cases h5 : oppN g cb d ≥ ownN g cb d
    case pos =>
      unfold inlineApplyCore isIllegalInlineCore
      rw [if_neg h1, if_neg h1, if_neg h2, if_neg h2, if_neg h3, if_neg h3,
        if_pos h4, if_pos h4, if_pos h5, if_pos h5]
      exact Or.inl ⟨⟨_, rfl⟩, rfl, rfl, rfl⟩
    case neg =>
      have hsum_le : ownN g cb d + oppN g cb d ≤ (line_to_edge cb d).length := by omega
      rcases hpt : pushToSpace g cb d with _ | pt
      case none =>
        unfold inlineApplyCore isIllegalInlineCore
        rw [if_neg h1, if_neg h1, if_neg h2, if_neg h2, if_neg h3, if_neg h3,
          if_pos h4, if_pos h4, if_neg h5, if_neg h5, hpt]
        dsimp only
        refine Or.inr ⟨rfl, hcb, how1, howlt, hcbtgt, htgt0, htgtpos,
          Or.inl ⟨Or.inr rfl, ?_⟩⟩
        unfold inlineFinish saveState setMarble
        dsimp only
        rw [show (line_to_edge cb d).getD (ownN g cb d) cb = tgtSpc g cb d from rfl]
        rw [Function.update_noteq hcbtgt]
        simp
      case some =>
        have hsumlt : ownN g cb d + oppN g cb d < (line_to_edge cb d).length := by
          rcases Nat.lt_or_ge (ownN g cb d + oppN g cb d) (line_to_edge cb d).length
            with hlt | hge
          · exact hlt
          · exfalso
            have hoff := lineToEdge_last_off cb d
            have hidx : ownN g cb d + oppN g cb d - 1
                = (line_to_edge cb d).length - 1 := by omega
            have hnone : pushToSpace g cb d = none := by
              unfold pushToSpace
              rw [hidx]
              exact hoff
            rw [hpt] at hnone
            exact Option.noConfusion hnone
        have hpt_idx : pt = (line_to_edge cb d).getD (ownN g cb d + oppN g cb d) cb := by
          have hch := chain_getD (lineToEdge_chain cb d)
            (show ownN g cb d + oppN g cb d - 1 + 1 < (line_to_edge cb d).length by omega) cb
          have hidx2 : ownN g cb d + oppN g cb d - 1 + 1 = ownN g cb d + oppN g cb d := by
            omega
          rw [hidx2] at hch
          have hps : pushToSpace g cb d
              = some ((line_to_edge cb d).getD (ownN g cb d + oppN g cb d) cb) := hch
          rw [hpt] at hps
          exact Option.some_injective _ hps
        have hpt_not_opp : g.board pt ≠ marble_of_player (not_in_turn_player g) := by
          have hf := runLen_getD_false
            (fun s => g.board s == marble_of_player (not_in_turn_player g)) cb
            ((line_to_edge cb d).drop (ownN g cb d))
            (by rw [← oppN_eq, hlen_drop]; omega)
          rw [← oppN_eq, getD_drop, ← hpt_idx] at hf
          simpa using hf
        by_cases h6 : g.board pt = marble_of_player g.turn
        case pos =>
          unfold inlineApplyCore isIllegalInlineCore
          rw [if_neg h1, if_neg h1, if_neg h2, if_neg h2, if_neg h3, if_neg h3,
            if_pos h4, if_pos h4, if_neg h5, if_neg h5, hpt]
          dsimp only
          rw [if_pos h6, if_pos h6]
          exact Or.inl ⟨⟨_, rfl⟩, rfl, rfl, rfl⟩
        case neg =>
          have hpt_blank : g.board pt = Marble.blank := marble_blank_of_ne g _ h6 hpt_not_opp
          have hpt_tgt : pt ≠ tgtSpc g cb d := by
            rw [hpt_idx]
            exact nodup_getD_ne (lineToEdge_nodup cb d) hsumlt howlt (by omega) cb
          have hpt_cb : pt ≠ cb := by
            rw [hpt_idx]
            have hne := nodup_getD_ne (lineToEdge_nodup cb d) hsumlt
              (show 0 < (line_to_edge cb d).length by omega)
              (show ownN g cb d + oppN g cb d ≠ 0 by omega) cb
            rw [lineToEdge_getD_zero cb d cb] at hne
            exact hne
          unfold inlineApplyCore isIllegalInlineCore
          rw [if_neg h1, if_neg h1, if_neg h2, if_neg h2, if_neg h3, if_neg h3,
            if_pos h4, if_pos h4, if_neg h5, if_neg h5, hpt]
          dsimp only
          rw [if_neg h6, if_neg h6]
          refine Or.inr ⟨rfl, hcb, how1, howlt, hcbtgt, htgt0, htgtpos,
            Or.inr ⟨pt, rfl, h4, hpt_blank, hpt_tgt, hpt_cb, ?_⟩⟩
          unfold inlineFinish saveState setMarble
          dsimp only
          rw [show (line_to_edge cb d).getD (ownN g cb d) cb = tgtSpc g cb d from rfl]
          rw [Function.update_noteq hpt_tgt.symm, Function.update_noteq hcbtgt,
            Function.update_noteq hpt_cb.symm]
          simp
  case neg =>
    unfold inlineApplyCore isIllegalInlineCore
    rw [if_neg h1, if_neg h1, if_neg h2, if_neg h2, if_neg h3, if_neg h3, if_neg h4, if_neg h4]
    refine Or.inr ⟨rfl, hcb, how1, howlt, hcbtgt, htgt0, htgtpos,
      Or.inl ⟨Or.inl (by omega), ?_⟩⟩
    unfold inlineFinish saveState setMarble
    dsimp only
    rw [show (line_to_edge cb d).getD (ownN g cb d) cb = tgtSpc g cb d from rfl]
    rw [Function.update_noteq hcbtgt]
    simp

theorem countMarble_update2 (b : Board) (t1 t2 : Spc) (v1 v2 m : Marble) (h21 : t2 ≠ t1) :
    countMarble (Function.update (Function.update b t1 v1) t2 v2) m
        + (if b t1 = m then 1 else 0) + (if b t2 = m then 1 else 0)
      = countMarble b m + (if v1 = m then 1 else 0) + (if v2 = m then 1 else 0) := by
  have c2 := countMarble_update (Function.update b t1 v1) t2 v2 m
  have c1 := countMarble_update b t1 v1 m
  rw [Function.update_noteq h21] at c2
  omega

theorem countMarble_update3 (b : Board) (t1 t2 t3 : Spc) (v1 v2 v3 m : Marble)
    (h21 : t2 ≠ t1) (h31 : t3 ≠ t1) (h32 : t3 ≠ t2) :
    countMarble (Function.update (Function.update (Function.update b t1 v1) t2 v2) t3 v3) m
        + (if b t1 = m then 1 else 0) + (if b t2 = m then 1 else 0)
        + (if b t3 = m then 1 else 0)
      = countMarble b m + (if v1 = m then 1 else 0) + (if v2 = m then 1 else 0)
        + (if v3 = m then 1 else 0) := by
  have c3 := countMarble_update (Function.update (Function.update b t1 v1) t2 v2) t3 v3 m
  have c2 := countMarble_update2 b t1 t2 v1 v2 m h21
  rw [Function.update_noteq h32, Function.update_noteq h31] at c3
  omega

/-- Undo after a successful inline apply restores the board exactly. -/
theorem inlineCore_undo (g : Game) (cb : Spc) (d : Direction)
    (h : (inlineApplyCore g cb d).err = none) :
    undoBoard (inlineApplyCore g cb d).cache (inlineApplyCore g cb d).game.board
      = g.board := by
  rcases inlineCore_cases g cb d with ⟨⟨m, hm⟩, _, _, _⟩ |
    ⟨_, hcb, how1, howlt, hcbtgt, htgt0, htgtpos, hshape⟩
  · rw [hm] at h
    exact Option.noConfusion h
  · rcases hshape with ⟨_, heq⟩ | ⟨pt, _, _, _, hpt_tgt, hpt_cb, heq⟩
    · rw [heq]
      have hnd : List.Nodup [tgtSpc g cb d, cb] := by
        refine List.nodup_cons.mpr ⟨?_, List.nodup_singleton cb⟩
        simp only [List.mem_singleton]
        exact Ne.symm hcbtgt
      refine undoBoard_restores g.board [tgtSpc g cb d, cb] _ hnd ?_
      intro x hx
      have hx2 : x ≠ tgtSpc g cb d ∧ x ≠ cb := by simpa using hx
      show Function.update (Function.update g.board (tgtSpc g cb d) (marble_of_player g.turn))
        cb Marble.blank x = g.board x
      rw [Function.update_noteq hx2.2, Function.update_noteq hx2.1]
    · rw [heq]
      have hnd : List.Nodup [pt, tgtSpc g cb d, cb] := by
        refine List.nodup_cons.mpr ⟨?_, List.nodup_cons.mpr ⟨?_, List.nodup_singleton cb⟩⟩
        · simp only [List.mem_cons, List.mem_singleton, List.not_mem_nil, or_false]
          rintro (he | he)
          · exact hpt_tgt he
          · exact hpt_cb he
        · simp only [List.mem_singleton]
          exact Ne.symm hcbtgt
      refine undoBoard_restores g.board [pt, tgtSpc g cb d, cb] _ hnd ?_
      intro x hx
      have hx3 : x ≠ pt ∧ x ≠ tgtSpc g cb d ∧ x ≠ cb := by simpa using hx
      show Function.update (Function.update (Function.update g.board pt
        (marble_of_player (not_in_turn_player g))) (tgtSpc g cb d)
        (marble_of_player g.turn)) cb Marble.blank x = g.board x
      rw [Function.update_noteq hx3.2.2, Function.update_noteq hx3.2.1,
        Function.update_noteq hx3.1]

/-- Marble counts after a successful inline apply: the mover count never
changes; the opponent count drops by one exactly on a push off the board. -/
theorem inlineCore_score (g : Game) (cb : Spc) (d : Direction)
    (h : (inlineApplyCore g cb d).err = none) :
    countMarble (inlineApplyCore g cb d).game.board (marble_of_player g.turn)
        = countMarble g.board (marble_of_player g.turn)
      ∧ (inline_push_off g cb d = true →
          countMarble (inlineApplyCore g cb d).game.board
              (marble_of_player (not_in_turn_player g)) + 1
            = countMarble g.board (marble_of_player (not_in_turn_player g)))
      ∧ (inline_push_off g cb d = false →
          countMarble (inlineApplyCore g cb d).game.board
              (marble_of_player (not_in_turn_player g))
            = countMarble g.board (marble_of_player (not_in_turn_player g))) := by
  rcases inlineCore_cases g cb d with ⟨⟨m, hm⟩, _, _, _⟩ |
    ⟨_, hcb, how1, howlt, hcbtgt, htgt0, htgtpos, hshape⟩
  · rw [hm] at h
    exact Option.noConfusion h
  · rcases hshape with ⟨hcase, heq⟩ | ⟨pt, hpt, hop, hpt_blank, hpt_tgt, hpt_cb, heq⟩
    · by_cases h0 : oppN g cb d = 0
      · -- plain advance into a blank space
        have hb_tgt : g.board (tgtSpc g cb d) = Marble.blank := htgt0 h0
        have hpo : inline_push_off g cb d = false := by
          unfold inline_push_off
          simp [h0]
        rw [heq, hpo]
        have cown := countMarble_update2 g.board (tgtSpc g cb d) cb
          (marble_of_player g.turn) Marble.blank (marble_of_player g.turn) hcbtgt
        have copp := countMarble_update2 g.board (tgtSpc g cb d) cb
          (marble_of_player g.turn) Marble.blank (marble_of_player (not_in_turn_player g))
          hcbtgt
        rw [hb_tgt, hcb] at cown copp
        refine ⟨?_, fun hc => Bool.noConfusion hc, fun _ => ?_⟩
        · show countMarble (Function.update (Function.update g.board (tgtSpc g cb d)
            (marble_of_player g.turn)) cb Marble.blank) (marble_of_player g.turn)
            = countMarble g.board (marble_of_player g.turn)
          cases hgt : g.turn <;>
            simp only [hgt, not_in_turn_player, marble_of_player] at cown ⊢ <;>
            simp at cown <;> omega
        · show countMarble (Function.update (Function.update g.board (tgtSpc g cb d)
            (marble_of_player g.turn)) cb Marble.blank)
              (marble_of_player (not_in_turn_player g))
            = countMarble g.board (marble_of_player (not_in_turn_player g))
          cases hgt : g.turn <;>
            simp only [hgt, not_in_turn_player, marble_of_player] at copp ⊢ <;>
            simp at copp <;> omega
      · -- sumito push off the board: the target held the opponent marble
        have hpos : 0 < oppN g cb d := by omega
        have hb_tgt : g.board (tgtSpc g cb d) = marble_of_player (not_in_turn_player g) :=
          htgtpos hpos
        have hnone : pushToSpace g cb d = none := by
          rcases hcase with hc | hc
          · omega
          · exact hc
        have hpo : inline_push_off g cb d = true := by
          unfold inline_push_off
          rw [hnone]
          simp [hpos]
        rw [heq, hpo]
        have cown := countMarble_update2 g.board (tgtSpc g cb d) cb
          (marble_of_player g.turn) Marble.blank (marble_of_player g.turn) hcbtgt
        have copp := countMarble_update2 g.board (tgtSpc g cb d) cb
          (marble_of_player g.turn) Marble.blank (marble_of_player (not_in_turn_player g))
          hcbtgt
        rw [hb_tgt, hcb] at cown copp
        refine ⟨?_, fun _ => ?_, fun hc => Bool.noConfusion hc⟩
        · show countMarble (Function.update (Function.update g.board (tgtSpc g cb d)
            (marble_of_player g.turn)) cb Marble.blank) (marble_of_player g.turn)
            = countMarble g.board (marble_of_player g.turn)
          cases hgt : g.turn <;>
            simp only [hgt, not_in_turn_player, marble_of_player] at cown ⊢ <;>
            simp at cown <;> omega
        · show countMarble (Function.update (Function.update g.board (tgtSpc g cb d)
            (marble_of_player g.turn)) cb Marble.blank)
              (marble_of_player (not_in_turn_player g)) + 1
            = countMarble g.board (marble_of_player (not_in_turn_player g))
          cases hgt : g.turn <;>
            simp only [hgt, not_in_turn_player, marble_of_player] at copp ⊢ <;>
            simp at copp <;> omega
    · -- sumito push onto an empty space
      have hpo : inline_push_off g cb d = false := by
        unfold inline_push_off
        rw [hpt]
        simp
      have hb_tgt : g.board (tgtSpc g cb d) = marble_of_player (not_in_turn_player g) :=
        htgtpos hop
      rw [heq, hpo]
      have cown := countMarble_update3 g.board pt (tgtSpc g cb d) cb
        (marble_of_player (not_in_turn_player g)) (marble_of_player g.turn) Marble.blank
        (marble_of_player g.turn) (Ne.symm hpt_tgt) (Ne.symm hpt_cb) hcbtgt
      have copp := countMarble_update3 g.board pt (tgtSpc g cb d) cb
        (marble_of_player (not_in_turn_player g)) (marble_of_player g.turn) Marble.blank
        (marble_of_player (not_in_turn_player g)) (Ne.symm hpt_tgt) (Ne.symm hpt_cb) hcbtgt
      rw [hpt_blank, hb_tgt, hcb] at cown copp
      refine ⟨?_, fun hc => Bool.noConfusion hc, fun _ => ?_⟩
      · show countMarble (Function.update (Function.update (Function.update g.board pt
          (marble_of_player (not_in_turn_player g))) (tgtSpc g cb d)
          (marble_of_player g.turn)) cb Marble.blank) (marble_of_player g.turn)
          = countMarble g.board (marble_of_player g.turn)
        cases hgt : g.turn <;>
          simp only [hgt, not_in_turn_player, marble_of_player] at cown ⊢ <;>
          simp at cown <;> omega
      · show countMarble (Function.update (Function.update (Function.update g.board pt
          (marble_of_player (not_in_turn_player g))) (tgtSpc g cb d)
          (marble_of_player g.turn)) cb Marble.blank)
            (marble_of_player (not_in_turn_player g))
          = countMarble g.board (marble_of_player (not_in_turn_player g))
        cases hgt : g.turn <;>
          simp only [hgt, not_in_turn_player, marble_of_player] at copp ⊢ <;>
          simp at copp <;> omega

/-- The apply raises IllegalMoveException exactly when the legality
predicate answers true; a false answer means the apply succeeds untouched by
errors. -/
theorem inlineCore_iff (g : Game) (cb : Spc) (d : Direction) :
    ((∃ m, (inlineApplyCore g cb d).err = some (GErr.illegal m))
        ↔ isIllegalInlineCore g cb d = true)
      ∧ (isIllegalInlineCore g cb d = false → (inlineApplyCore g cb d).err = none) := by
  rcases inlineCore_cases g cb d with ⟨hm, hill, _, _⟩ |
    ⟨hill, _, _, _, _, _, _, hshape⟩
  · constructor
    · exact ⟨fun _ => hill, fun _ => hm⟩
    · intro hf
      rw [hill] at hf
      exact Bool.noConfusion hf
  · have herr : (inlineApplyCore g cb d).err = none := by
      rcases hshape with ⟨_, heq⟩ | ⟨pt, _, _, _, _, _, heq⟩ <;> rw [heq]
    constructor
    · constructor
      · intro ⟨m, hm⟩
        rw [herr] at hm
        exact Option.noConfusion hm
      · intro ht
        rw [hill] at ht
        exact Bool.noConfusion ht
    · intro _
      exact herr

/-- A passed check loop certifies every marble and destination of the
broadside line on the original board. -/
theorem checkLoop_facts (g : Game) (d : Direction) :
    ∀ ms : List Spc, broadsideCheckLoop g d ms = none →
      ∀ m ∈ ms, g.board m = marble_of_player g.turn
        ∧ ∃ t, neighbor m d = some t ∧ g.board t = Marble.blank := by
  intro ms
  induction ms with
  | nil => intro _ m hm; exact absurd hm (List.not_mem_nil m)
  | cons m0 rest ih =>
    intro h m hm
    unfold broadsideCheckLoop at h
    by_cases h1 : g.board m0 ≠ marble_of_player g.turn
    · rw [if_pos h1] at h
      exact Option.noConfusion h
    · rw [if_neg h1] at h
      rcases hn : neighbor m0 d with _ | t
      · rw [hn] at h
        exact Option.noConfusion h
      · rw [hn] at h
        dsimp only at h
        by_cases h2 : g.board t ≠ Marble.blank
        · rw [if_pos h2] at h
          exact Option.noConfusion h
        · rw [if_neg h2] at h
          rcases List.mem_cons.mp hm with he | hm2
          · subst he
            exact ⟨not_not.mp h1, t, hn, not_not.mp h2⟩
          · exact ih h m hm2

/-- The check loop of the apply and the loop of the legality predicate agree
check by check. -/
theorem loops_agree (g : Game) (d : Direction) :
    ∀ ms : List Spc,
      (broadsideCheckLoop g d ms = none → broadsideIllegalLoop g d ms = false)
        ∧ (∀ e, broadsideCheckLoop g d ms = some e →
            broadsideIllegalLoop g d ms = true ∧ ∃ m, e = GErr.illegal m) := by
  intro ms
  induction ms with
  | nil =>
    constructor
    · intro _; rfl
    · intro e he; exact Option.noConfusion he
  | cons m0 rest ih =>
    unfold broadsideCheckLoop broadsideIllegalLoop
    by_cases h1 : g.board m0 ≠ marble_of_player g.turn
    · rw [if_pos h1, if_pos h1]
      constructor
      · intro he; exact Option.noConfusion he
      · intro e he
        refine ⟨rfl, ?_⟩
        rw [← Option.some_inj.mp he]
        exact ⟨_, rfl⟩
    · rw [if_neg h1, if_neg h1]
      rcases hn : neighbor m0 d with _ | t
      · constructor
        · intro he; exact Option.noConfusion he
        · intro e he
          refine ⟨rfl, ?_⟩
          rw [← Option.some_inj.mp he]
          exact ⟨_, rfl⟩
      · dsimp only
        by_cases h2 : g.board t ≠ Marble.blank
        · rw [if_pos h2, if_pos h2]
          constructor
          · intro he; exact Option.noConfusion he
          · intro e he
            refine ⟨rfl, ?_⟩
            rw [← Option.some_inj.mp he]
            exact ⟨_, rfl⟩
        · rw [if_neg h2, if_neg h2]
          exact ih

/-- The mutation loop raises nothing once every destination is on-board. -/
theorem mutateLoop_ok (d : Direction) :
    ∀ ms : List Spc, (∀ m ∈ ms, ∃ t, neighbor m d = some t) →
      ∀ (g : Game) (c : List (Spc × Marble)),
        (broadsideMutateLoop g c d ms).err = none := by
  intro ms
  induction ms with
  | nil => intro _ g c; rfl
  | cons m0 rest ih =>
    intro hall g c
    obtain ⟨t, hn⟩ := hall m0 (List.mem_cons_self m0 rest)
    unfold broadsideMutateLoop
    rw [hn]
    exact ih (fun m hm => hall m (List.mem_cons_of_mem m0 hm)) _ _

/-- Full case analysis of MoveBroadside._apply against
Game.is_illegal_move_broadside: either the move is illegal (the apply raises
IllegalMoveException, the predicate answers true, the game is untouched with
an empty log), or the predicate answers false and the apply runs the
mutation loop over the duplicate-free line of 2 or 3 own marbles whose
destinations all checked out blank. -/
theorem broadsideCore_cases (g : Game) (b0 b1 : Space) (d : Direction) :
    ((∃ m, (broadsideApply b0 b1 d g).err = some (GErr.illegal m))
      ∧ is_illegal_move_broadside g b0 b1 d = true
      ∧ (broadsideApply b0 b1 d g).game = g
      ∧ (broadsideApply b0 b1 d g).cache = [])
    ∨
    (is_illegal_move_broadside g b0 b1 d = false
      ∧ ∃ s0 s1 marbles d1, b0 = some s0 ∧ b1 = some s1
        ∧ line_from_to s0 s1 = some (marbles, d1)
        ∧ (marbles.length = 2 ∨ marbles.length = 3)
        ∧ marbles.Nodup
        ∧ broadsideCheckLoop g d marbles = none
        ∧ broadsideApply b0 b1 d g = broadsideMutateLoop g [] d marbles) := by
  rcases b0 with _ | s0
  · unfold broadsideApply is_illegal_move_broadside
    exact Or.inl ⟨⟨_, rfl⟩, rfl, rfl, rfl⟩
  · rcases b1 with _ | s1
    · unfold broadsideApply is_illegal_move_broadside
      exact Or.inl ⟨⟨_, rfl⟩, rfl, rfl, rfl⟩
    · rcases hlft : line_from_to s0 s1 with _ | ⟨marbles, d1⟩
      · unfold broadsideApply is_illegal_move_broadside
        dsimp only
        rw [hlft]
        exact Or.inl ⟨⟨_, rfl⟩, rfl, rfl, rfl⟩
      · by_cases hlen : ¬(marbles.length = 2 ∨ marbles.length = 3)
        · unfold broadsideApply is_illegal_move_broadside
          dsimp only
          rw [hlft]
          dsimp only
          rw [if_pos hlen, if_pos hlen]
          exact Or.inl ⟨⟨_, rfl⟩, rfl, rfl, rfl⟩
        · by_cases hdir : d = d1 ∨ (line_from_to s1 s0).map (fun x => x.2) = some d
          · unfold broadsideApply is_illegal_move_broadside
            dsimp only
            rw [hlft]
            dsimp only
            rw [if_neg hlen, if_neg hlen, if_pos hdir, if_pos hdir]
            exact Or.inl ⟨⟨_, rfl⟩, rfl, rfl, rfl⟩
          · rcases hcl : broadsideCheckLoop g d marbles with _ | e
            · refine Or.inr ⟨?_, s0, s1, marbles, d1, rfl, rfl, hlft,
                not_not.mp hlen, lineFromTo_nodup hlft, hcl, ?_⟩
              · unfold is_illegal_move_broadside
                dsimp only
                rw [hlft]
                dsimp only
                rw [if_neg hlen, if_neg hdir]
                exact (loops_agree g d marbles).1 hcl
              · unfold broadsideApply
                dsimp only
                rw [hlft]
                dsimp only
                rw [if_neg hlen, if_neg hdir, hcl]
            · have hag := (loops_agree g d marbles).2 e hcl
              have happ : broadsideApply (some s0) (some s1) d g = ⟨some e, g, []⟩ := by
                unfold broadsideApply
                dsimp only
                rw [hlft]
                dsimp only
                rw [if_neg hlen, if_neg hdir, hcl]
              have hill : is_illegal_move_broadside g (some s0) (some s1) d = true := by
                unfold is_illegal_move_broadside
                dsimp only
                rw [hlft]
                dsimp only
                rw [if_neg hlen, if_neg hdir]
                exact hag.1
              rw [happ]
              obtain ⟨m, hm⟩ := hag.2
              exact Or.inl ⟨⟨m, by rw [hm]⟩, hill, rfl, rfl⟩

theorem list_len23 {l : List Spc} (h : l.length = 2 ∨ l.length = 3) :
    (∃ a b, l = [a, b]) ∨ (∃ a b c, l = [a, b, c]) := by
  rcases l with _ | ⟨a, _ | ⟨b, _ | ⟨c, _ | ⟨e, l⟩⟩⟩⟩
  · simp at h
  · simp at h
  · exact Or.inl ⟨a, b, rfl⟩
  · exact Or.inr ⟨a, b, c, rfl⟩
  · exfalso
    simp only [List.length_cons] at h
    omega

/-- The mutation loop on a two-marble line, step by step: each source is
logged and cleared, then its destination is logged (off the then-current
board) and set to the mover marble. -/
theorem mutate_two (g : Game) (d : Direction) (m1 t1 m2 t2 : Spc)
    (hn1 : neighbor m1 d = some t1) (hn2 : neighbor m2 d = some t2) :
    broadsideMutateLoop g [] d [m1, m2] =
      ⟨none,
        setMarble (setMarble (setMarble (setMarble g m1 Marble.blank) t1
          (marble_of_player g.turn)) m2 Marble.blank) t2 (marble_of_player g.turn),
        [(m1, g.board m1),
          (t1, (setMarble g m1 Marble.blank).board t1),
          (m2, (setMarble (setMarble g m1 Marble.blank) t1
            (marble_of_player g.turn)).board m2),
          (t2, (setMarble (setMarble (setMarble g m1 Marble.blank) t1
            (marble_of_player g.turn)) m2 Marble.blank).board t2)]⟩ := by
  unfold broadsideMutateLoop
  rw [hn1]
  dsimp only
  unfold broadsideMutateLoop
  rw [hn2]
  dsimp only
  simp [broadsideMutateLoop, saveState, setMarble]

/-- The mutation loop on a three-marble line. -/
theorem mutate_three (g : Game) (d : Direction) (m1 t1 m2 t2 m3 t3 : Spc)
    (hn1 : neighbor m1 d = some t1) (hn2 : neighbor m2 d = some t2)
    (hn3 : neighbor m3 d = some t3) :
    broadsideMutateLoop g [] d [m1, m2, m3] =
      ⟨none,
        setMarble (setMarble (setMarble (setMarble (setMarble (setMarble g m1 Marble.blank)
          t1 (marble_of_player g.turn)) m2 Marble.blank) t2 (marble_of_player g.turn))
          m3 Marble.blank) t3 (marble_of_player g.turn),
        [(m1, g.board m1),
          (t1, (setMarble g m1 Marble.blank).board t1),
          (m2, (setMarble (setMarble g m1 Marble.blank) t1
            (marble_of_player g.turn)).board m2),
          (t2, (setMarble (setMarble (setMarble g m1 Marble.blank) t1
            (marble_of_player g.turn)) m2 Marble.blank).board t2),
          (m3, (setMarble (setMarble (setMarble (setMarble g m1 Marble.blank) t1
            (marble_of_player g.turn)) m2 Marble.blank) t2
            (marble_of_player g.turn)).board m3),
          (t3, (setMarble (setMarble (setMarble (setMarble (setMarble g m1 Marble.blank) t1
            (marble_of_player g.turn)) m2 Marble.blank) t2 (marble_of_player g.turn)) m3
            Marble.blank).board t3)]⟩ := by
  unfold broadsideMutateLoop
  rw [hn1]
  dsimp only
  unfold broadsideMutateLoop
  rw [hn2]
  dsimp only
  unfold broadsideMutateLoop
  rw [hn3]
  dsimp only
  simp [broadsideMutateLoop, saveState, setMarble]

/-- A source cell of a broadside line never coincides with a destination
cell: on the checked board the former holds the mover marble, the latter is
blank. -/
theorem blank_ne_own (g : Game) {t m2 : Spc} (ht : g.board t = Marble.blank)
    (hm : g.board m2 = marble_of_player g.turn) : t ≠ m2 := by
  intro he
  rw [he, hm] at ht
  exact marble_of_player_ne_blank g.turn ht

/-- Combined effect of a successful broadside apply: undo restores the
board, and the marble count of every color (blank included) is unchanged. -/
theorem broadsideCore_effects (g : Game) (b0 b1 : Space) (d : Direction)
    (h : (broadsideApply b0 b1 d g).err = none) :
    undoBoard (broadsideApply b0 b1 d g).cache (broadsideApply b0 b1 d g).game.board
        = g.board
      ∧ ∀ m : Marble, countMarble (broadsideApply b0 b1 d g).game.board m
        = countMarble g.board m := by
  rcases broadsideCore_cases g b0 b1 d with ⟨⟨m, hm⟩, _, _, _⟩ |
    ⟨_, s0, s1, marbles, d1, hb0, hb1, hlft, hlen, hnodup, hcl, happ⟩
  · rw [hm] at h
    exact Option.noConfusion h
  · subst hb0
    subst hb1
    rcases list_len23 hlen with ⟨m1, m2, rfl⟩ | ⟨m1, m2, m3, rfl⟩
    · obtain ⟨hbm1, t1, hn1, ht1⟩ :=
        checkLoop_facts g d [m1, m2] hcl m1 (by simp)
      obtain ⟨hbm2, t2, hn2, ht2⟩ :=
        checkLoop_facts g d [m1, m2] hcl m2 (by simp)
      have hm12 : m1 ≠ m2 := by
        intro he
        subst he
        exact (List.nodup_cons.mp hnodup).1 (List.mem_cons_self m1 [])
      have ht1m1 : t1 ≠ m1 := blank_ne_own g ht1 hbm1
      have ht1m2 : t1 ≠ m2 := blank_ne_own g ht1 hbm2
      have ht2m1 : t2 ≠ m1 := blank_ne_own g ht2 hbm1
      have ht2m2 : t2 ≠ m2 := blank_ne_own g ht2 hbm2
      have ht12 : t1 ≠ t2 := by
        intro he
        apply hm12
        refine neighbor_inj hn1 ?_
        rw [hn2, he]
      have e1 : Function.update g.board m1 Marble.blank t1 = g.board t1 :=
        Function.update_noteq ht1m1 _ _
      have e2 : Function.update (Function.update g.board m1 Marble.blank) t1
          (marble_of_player g.turn) m2 = g.board m2 := by
        rw [Function.update_noteq (Ne.symm ht1m2), Function.update_noteq (Ne.symm hm12)]
      have e3 : Function.update (Function.update (Function.update g.board m1 Marble.blank)
          t1 (marble_of_player g.turn)) m2 Marble.blank t2 = g.board t2 := by
        rw [Function.update_noteq ht2m2, Function.update_noteq (Ne.symm ht12),
          Function.update_noteq ht2m1]
      rw [happ, mutate_two g d m1 t1 m2 t2 hn1 hn2]
      simp only [setMarble]
      rw [e1, e2, e3]
      constructor
      · have hnd : List.Nodup [m1, t1, m2, t2] := by
          refine List.nodup_cons.mpr ⟨?_, List.nodup_cons.mpr ⟨?_,
            List.nodup_cons.mpr ⟨?_, List.nodup_singleton t2⟩⟩⟩
          · simp only [List.mem_cons, List.mem_singleton, List.not_mem_nil, or_false]
            rintro (he | he | he)
            · exact ht1m1 he.symm
            · exact hm12 he
            · exact ht2m1 he.symm
          · simp only [List.mem_cons, List.mem_singleton, List.not_mem_nil, or_false]
            rintro (he | he)
            · exact ht1m2 he
            · exact ht12 he
          · simp only [List.mem_singleton]
            exact Ne.symm ht2m2
        refine undoBoard_restores g.board [m1, t1, m2, t2] _ hnd ?_
        intro x hx
        have hx4 : x ≠ m1 ∧ x ≠ t1 ∧ x ≠ m2 ∧ x ≠ t2 := by simpa using hx
        show Function.update (Function.update (Function.update (Function.update g.board m1
          Marble.blank) t1 (marble_of_player g.turn)) m2 Marble.blank) t2
          (marble_of_player g.turn) x = g.board x
        rw [Function.update_noteq hx4.2.2.2, Function.update_noteq hx4.2.2.1,
          Function.update_noteq hx4.2.1, Function.update_noteq hx4.1]
      · intro m
        show countMarble (Function.update (Function.update (Function.update
          (Function.update g.board m1 Marble.blank) t1 (marble_of_player g.turn)) m2
          Marble.blank) t2 (marble_of_player g.turn)) m = countMarble g.board m
        have c1 := countMarble_update2 g.board m1 t1 Marble.blank
          (marble_of_player g.turn) m ht1m1
        have c2 := countMarble_update2 (Function.update (Function.update g.board m1
          Marble.blank) t1 (marble_of_player g.turn)) m2 t2 Marble.blank
          (marble_of_player g.turn) m ht2m2
        have f2 : Function.update (Function.update g.board m1 Marble.blank) t1
            (marble_of_player g.turn) t2 = g.board t2 := by
          rw [Function.update_noteq (Ne.symm ht12), Function.update_noteq ht2m1]
        rw [e2, f2] at c2
        rw [hbm1, ht1] at c1
        rw [hbm2, ht2] at c2
        set x := (if marble_of_player g.turn = m then 1 else 0) with hx
        set y := (if Marble.blank = m then 1 else 0) with hy
        omega
    · obtain ⟨hbm1, t1, hn1, ht1⟩ :=
        checkLoop_facts g d [m1, m2, m3] hcl m1 (by simp)
      obtain ⟨hbm2, t2, hn2, ht2⟩ :=
        checkLoop_facts g d [m1, m2, m3] hcl m2 (by simp)
      obtain ⟨hbm3, t3, hn3, ht3⟩ :=
        checkLoop_facts g d [m1, m2, m3] hcl m3 (by simp)
      have hm12 : m1 ≠ m2 := by
        intro he
        subst he
        exact (List.nodup_cons.mp hnodup).1 (List.mem_cons_self m1 [m3])
      have hm13 : m1 ≠ m3 := by
        intro he
        subst he
        exact (List.nodup_cons.mp hnodup).1 (List.mem_cons_of_mem m2
          (List.mem_cons_self m1 []))
      have hm23 : m2 ≠ m3 := by
        intro he
        subst he
        exact (List.nodup_cons.mp (List.nodup_cons.mp hnodup).2).1 (List.mem_cons_self m2 [])
      have ht1m1 : t1 ≠ m1 := blank_ne_own g ht1 hbm1
      have ht1m2 : t1 ≠ m2 := blank_ne_own g ht1 hbm2
      have ht1m3 : t1 ≠ m3 := blank_ne_own g ht1 hbm3
      have ht2m1 : t2 ≠ m1 := blank_ne_own g ht2 hbm1
      have ht2m2 : t2 ≠ m2 := blank_ne_own g ht2 hbm2
      have ht2m3 : t2 ≠ m3 := blank_ne_own g ht2 hbm3
      have ht3m1 : t3 ≠ m1 := blank_ne_own g ht3 hbm1
      have ht3m2 : t3 ≠ m2 := blank_ne_own g ht3 hbm2
      have ht3m3 : t3 ≠ m3 := blank_ne_own g ht3 hbm3
      have ht12 : t1 ≠ t2 := by
        intro he
        apply hm12
        refine neighbor_inj hn1 ?_
        rw [hn2, he]
      have ht13 : t1 ≠ t3 := by
        intro he
        apply hm13
        refine neighbor_inj hn1 ?_
        rw [hn3, he]
      have ht23 : t2 ≠ t3 := by
        intro he
        apply hm23
        refine neighbor_inj hn2 ?_
        rw [hn3, he]
      have e1 : Function.update g.board m1 Marble.blank t1 = g.board t1 :=
        Function.update_noteq ht1m1 _ _
      have e2 : Function.update (Function.update g.board m1 Marble.blank) t1
          (marble_of_player g.turn) m2 = g.board m2 := by
        rw [Function.update_noteq (Ne.symm ht1m2), Function.update_noteq (Ne.symm hm12)]
      have e3 : Function.update (Function.update (Function.update g.board m1 Marble.blank)
          t1 (marble_of_player g.turn)) m2 Marble.blank t2 = g.board t2 := by
        rw [Function.update_noteq ht2m2, Function.update_noteq (Ne.symm ht12),
          Function.update_noteq ht2m1]
      have e4 : Function.update (Function.update (Function.update (Function.update g.board
          m1 Marble.blank) t1 (marble_of_player g.turn)) m2 Marble.blank) t2
          (marble_of_player g.turn) m3 = g.board m3 := by
        rw [Function.update_noteq (Ne.symm ht2m3), Function.update_noteq (Ne.symm hm23),
          Function.update_noteq (Ne.symm ht1m3), Function.update_noteq (Ne.symm hm13)]
      have e5 : Function.update (Function.update (Function.update (Function.update
          (Function.update g.board m1 Marble.blank) t1 (marble_of_player g.turn)) m2
          Marble.blank) t2 (marble_of_player g.turn)) m3 Marble.blank t3 = g.board t3 := by
        rw [Function.update_noteq ht3m3, Function.update_noteq (Ne.symm ht23),
          Function.update_noteq ht3m2, Function.update_noteq (Ne.symm ht13),
          Function.update_noteq ht3m1]
      rw [happ, mutate_three g d m1 t1 m2 t2 m3 t3 hn1 hn2 hn3]
      simp only [setMarble]
      rw [e1, e2, e3, e4, e5]
      constructor
      · have hnd : List.Nodup [m1, t1, m2, t2, m3, t3] := by
          refine List.nodup_cons.mpr ⟨?_, List.nodup_cons.mpr ⟨?_, List.nodup_cons.mpr ⟨?_,
            List.nodup_cons.mpr ⟨?_, List.nodup_cons.mpr ⟨?_, List.nodup_singleton t3⟩⟩⟩⟩⟩
          · simp only [List.mem_cons, List.mem_singleton, List.not_mem_nil, or_false]
            rintro (he | he | he | he | he)
            · exact ht1m1 he.symm
            · exact hm12 he
            · exact ht2m1 he.symm
            · exact hm13 he
            · exact ht3m1 he.symm
          · simp only [List.mem_cons, List.mem_singleton, List.not_mem_nil, or_false]
            rintro (he | he | he | he)
            · exact ht1m2 he
            · exact ht12 he
            · exact ht1m3 he
            · exact ht13 he
          · simp only [List.mem_cons, List.mem_singleton, List.not_mem_nil, or_false]
            rintro (he | he | he)
            · exact ht2m2 he.symm
            · exact hm23 he
            · exact ht3m2 he.symm
          · simp only [List.mem_cons, List.mem_singleton, List.not_mem_nil, or_false]
            rintro (he | he)
            · exact ht2m3 he
            · exact ht23 he
          · simp only [List.mem_singleton]
            exact Ne.symm ht3m3
        refine undoBoard_restores g.board [m1, t1, m2, t2, m3, t3] _ hnd ?_
        intro x hx
        have hx6 : x ≠ m1 ∧ x ≠ t1 ∧ x ≠ m2 ∧ x ≠ t2 ∧ x ≠ m3 ∧ x ≠ t3 := by simpa using hx
        show Function.update (Function.update (Function.update (Function.update
          (Function.update (Function.update g.board m1 Marble.blank) t1
          (marble_of_player g.turn)) m2 Marble.blank) t2 (marble_of_player g.turn)) m3
          Marble.blank) t3 (marble_of_player g.turn) x = g.board x
        rw [Function.update_noteq hx6.2.2.2.2.2, Function.update_noteq hx6.2.2.2.2.1,
          Function.update_noteq hx6.2.2.2.1, Function.update_noteq hx6.2.2.1,
          Function.update_noteq hx6.2.1, Function.update_noteq hx6.1]
      · intro m
        show countMarble (Function.update (Function.update (Function.update
          (Function.update (Function.update (Function.update g.board m1 Marble.blank) t1
          (marble_of_player g.turn)) m2 Marble.blank) t2 (marble_of_player g.turn)) m3
          Marble.blank) t3 (marble_of_player g.turn)) m = countMarble g.board m
        have c1 := countMarble_update2 g.board m1 t1 Marble.blank
          (marble_of_player g.turn) m ht1m1
        have c2 := countMarble_update2 (Function.update (Function.update g.board m1
          Marble.blank) t1 (marble_of_player g.turn)) m2 t2 Marble.blank
          (marble_of_player g.turn) m ht2m2
        have c3 := countMarble_update2 (Function.update (Function.update (Function.update
          (Function.update g.board m1 Marble.blank) t1 (marble_of_player g.turn)) m2
          Marble.blank) t2 (marble_of_player g.turn)) m3 t3 Marble.blank
          (marble_of_player g.turn) m ht3m3
        have f2 : Function.update (Function.update g.board m1 Marble.blank) t1
            (marble_of_player g.turn) t2 = g.board t2 := by
          rw [Function.update_noteq (Ne.symm ht12), Function.update_noteq ht2m1]
        have f3 : Function.update (Function.update (Function.update (Function.update
            g.board m1 Marble.blank) t1 (marble_of_player g.turn)) m2 Marble.blank) t2
            (marble_of_player g.turn) t3 = g.board t3 := by
          rw [Function.update_noteq (Ne.symm ht23), Function.update_noteq ht3m2,
            Function.update_noteq (Ne.symm ht13), Function.update_noteq ht3m1]
        rw [e2, f2] at c2
        rw [e4, f3] at c3
        rw [hbm1, ht1] at c1
        rw [hbm2, ht2] at c2
        rw [hbm3, ht3] at c3
        set x := (if marble_of_player g.turn = m then 1 else 0) with hx
        set y := (if Marble.blank = m then 1 else 0) with hy
        omega

/-- The broadside apply raises IllegalMoveException exactly when the
legality predicate answers true; a false answer means it succeeds. -/
theorem broadsideCore_iff (g : Game) (b0 b1 : Space) (d : Direction) :
    ((∃ m, (broadsideApply b0 b1 d g).err = some (GErr.illegal m))
        ↔ is_illegal_move_broadside g b0 b1 d = true)
      ∧ (is_illegal_move_broadside g b0 b1 d = false →
          (broadsideApply b0 b1 d g).err = none) := by
  rcases broadsideCore_cases g b0 b1 d with ⟨hm, hill, _, _⟩ |
    ⟨hill, s0, s1, marbles, d1, hb0, hb1, hlft, hlen, hnodup, hcl, happ⟩
  · refine ⟨⟨fun _ => hill, fun _ => hm⟩, ?_⟩
    intro hf
    rw [hill] at hf
    exact Bool.noConfusion hf
  · have herr : (broadsideApply b0 b1 d g).err = none := by
      rw [happ]
      refine mutateLoop_ok d marbles ?_ g []
      intro m hm2
      obtain ⟨_, t, hn, _⟩ := checkLoop_facts g d marbles hcl m hm2
      exact ⟨t, hn⟩
    refine ⟨⟨?_, ?_⟩, fun _ => herr⟩
    · intro ⟨m, hm2⟩
      rw [herr] at hm2
      exact Option.noConfusion hm2
    · intro ht
      rw [hill] at ht
      exact Bool.noConfusion ht

/-- The Move.apply wrapper around a successful inline body. -/
theorem applyMoveInline_ok (g : Game) (cb : Spc) (d : Direction)
    (h : (inlineApplyCore g cb d).err = none) :
    applyMoveInline (some cb) d g =
      ⟨none, { (inlineApplyCore g cb d).game with
          boardHash := hashBoard (inlineApplyCore g cb d).game.board },
        (inlineApplyCore g cb d).cache, g.boardHash⟩ := by
  unfold applyMoveInline inlineApply
  dsimp only
  rw [h]

/-- The inline wrapper propagates the body error unchanged. -/
theorem applyMoveInline_err_eq (g : Game) (cb : Spc) (d : Direction) :
    (applyMoveInline (some cb) d g).err = (inlineApplyCore g cb d).err := by
  unfold applyMoveInline inlineApply
  dsimp only
  rcases ho : (inlineApplyCore g cb d).err with _ | e <;> rfl

/-- The Move.apply wrapper around a failing inline body leaves the game the
body left. -/
theorem applyMoveInline_err (g : Game) (cb : Spc) (d : Direction) (e : GErr)
    (h : (inlineApplyCore g cb d).err = some e) :
    applyMoveInline (some cb) d g =
      ⟨some e, (inlineApplyCore g cb d).game, (inlineApplyCore g cb d).cache,
        g.boardHash⟩ := by
  unfold applyMoveInline inlineApply
  dsimp only
  rw [h]

/-- The Move.apply wrapper around a successful broadside body. -/
theorem applyMoveBroadside_ok (g : Game) (b0 b1 : Space) (d : Direction)
    (h : (broadsideApply b0 b1 d g).err = none) :
    applyMoveBroadside b0 b1 d g =
      ⟨none, { (broadsideApply b0 b1 d g).game with
          boardHash := hashBoard (broadsideApply b0 b1 d g).game.board },
        (broadsideApply b0 b1 d g).cache, g.boardHash⟩ := by
  unfold applyMoveBroadside
  dsimp only
  rw [h]

theorem applyMoveBroadside_err_eq (g : Game) (b0 b1 : Space) (d : Direction) :
    (applyMoveBroadside b0 b1 d g).err = (broadsideApply b0 b1 d g).err := by
  unfold applyMoveBroadside
  dsimp only
  rcases ho : (broadsideApply b0 b1 d g).err with _ | e <;> rfl

theorem applyMoveBroadside_err (g : Game) (b0 b1 : Space) (d : Direction) (e : GErr)
    (h : (broadsideApply b0 b1 d g).err = some e) :
    applyMoveBroadside b0 b1 d g =
      ⟨some e, (broadsideApply b0 b1 d g).game, (broadsideApply b0 b1 d g).cache,
        g.boardHash⟩ := by
  unfold applyMoveBroadside
  dsimp only
  rw [h]

theorem mutateLoop_turn (d : Direction) :
    ∀ (ms : List Spc) (g : Game) (c : List (Spc × Marble)),
      (broadsideMutateLoop g c d ms).game.turn = g.turn := by
  intro ms
  induction ms with
  | nil => intro g c; rfl
  | cons m rest ih =>
    intro g c
    unfold broadsideMutateLoop
    rcases hn : neighbor m d with _ | t
    · rfl
    · dsimp only
      exact (ih _ _).trans rfl

theorem inlineCore_turn (g : Game) (cb : Spc) (d : Direction) :
    (inlineApplyCore g cb d).game.turn = g.turn := by
  rcases inlineCore_cases g cb d with ⟨_, _, hg, _⟩ | ⟨_, _, _, _, _, _, _, hshape⟩
  · rw [hg]
  · rcases hshape with ⟨_, heq⟩ | ⟨pt, _, _, _, _, _, heq⟩ <;> rw [heq] <;> rfl

theorem broadsideApply_turn (g : Game) (b0 b1 : Space) (d : Direction) :
    (broadsideApply b0 b1 d g).game.turn = g.turn := by
  rcases broadsideCore_cases g b0 b1 d with ⟨_, _, hg, _⟩ |
    ⟨_, s0, s1, marbles, d1, hb0, hb1, _, _, _, _, happ⟩
  · rw [hg]
  · subst hb0
    subst hb1
    rw [happ]
    exact mutateLoop_turn d marbles g []

theorem applyMoveInline_turn (cb : Space) (d : Direction) (g : Game) :
    (applyMoveInline cb d g).game.turn = g.turn := by
  rcases cb with _ | cb
  · rfl
  · rcases ho : (inlineApplyCore g cb d).err with _ | e
    · rw [applyMoveInline_ok g cb d ho]
      exact inlineCore_turn g cb d
    · rw [applyMoveInline_err g cb d e ho]
      exact inlineCore_turn g cb d

theorem applyMoveBroadside_turn (b0 b1 : Space) (d : Direction) (g : Game) :
    (applyMoveBroadside b0 b1 d g).game.turn = g.turn := by
  rcases ho : (broadsideApply b0 b1 d g).err with _ | e
  · rw [applyMoveBroadside_ok g b0 b1 d ho]
    exact broadsideApply_turn g b0 b1 d
  · rw [applyMoveBroadside_err g b0 b1 d e ho]
    exact broadsideApply_turn g b0 b1 d

/-- One component of the score pair, per player, in the (black, white)
order of Game.get_score. -/
def scoreOf (sc : Nat × Nat) (p : Player) : Nat :=
  match p with
  | .black => sc.1
  | .white => sc.2

theorem scoreOf_get_score (g : Game) (p : Player) :
    scoreOf (get_score g) p = countMarble g.board (marble_of_player p) := by
  cases p <;> rfl

theorem player_is_turn_or_not (g : Game) (p : Player) :
    p = g.turn ∨ p = not_in_turn_player g := by
  cases p <;> cases hgt : g.turn <;> simp [not_in_turn_player, hgt]

/-- The cell C4. -/
def spC4 : Spc := ⟨(2, 3), by decide⟩

/-- A board with no marbles on it. -/
def blankBoard : Board := fun _ => Marble.blank

/-- A game state over the empty board with black in turn: the state on
which the division guard of the heuristic matters. -/
def blankGame : Game :=
  { board := blankBoard, turn := Player.black, boardHash := hashBoard blankBoard }

/-- Fuel 2 already computes distance on every pair of cells, so the slack
fuel 4 of the definition changes no value: the recursion of the source
reaches depth 1 wherever the intermediate name lookup succeeds. -/
theorem distanceFuel_stable : ∀ a b : Spc, distanceFuel 2 a b = distance a b := by decide

/-- C1: for every game state and every inline or broadside move whose
apply reports no exception, Move.undo on the outcome restores every board
cell to its pre-apply content and restores the position hash to its
pre-apply value. -/
theorem c1_undo_exact (g : Game) (d : Direction) :
    (∀ cb : Space, (applyMoveInline cb d g).err = none →
      (∀ s : Spc, (undoMove (applyMoveInline cb d g)).board s = g.board s)
        ∧ (undoMove (applyMoveInline cb d g)).boardHash = g.boardHash)
    ∧ (∀ b0 b1 : Space, (applyMoveBroadside b0 b1 d g).err = none →
      (∀ s : Spc, (undoMove (applyMoveBroadside b0 b1 d g)).board s = g.board s)
        ∧ (undoMove (applyMoveBroadside b0 b1 d g)).boardHash = g.boardHash) := by
  constructor
  · rintro (_ | cb) h
    · exact Option.noConfusion h
    · rw [applyMoveInline_err_eq] at h
      rw [applyMoveInline_ok g cb d h]
      exact ⟨fun s => congrFun (inlineCore_undo g cb d h) s, rfl⟩
  · intro b0 b1 h
    rw [applyMoveBroadside_err_eq] at h
    rw [applyMoveBroadside_ok g b0 b1 d h]
    exact ⟨fun s => congrFun (broadsideCore_effects g b0 b1 d h).1 s, rfl⟩

theorem c1_undo_exact_witness :
    (applyMoveInline (some spA1) Direction.northEast defaultGame).err = none
    ∧ (applyMoveBroadside (some spC3) (some spC4) Direction.northWest defaultGame).err = none
    ∧ (undoMove (applyMoveInline (some spA1) Direction.northEast defaultGame)).board spD4
        = defaultGame.board spD4
    ∧ (undoMove (applyMoveInline (some spA1) Direction.northEast defaultGame)).boardHash
        = defaultGame.boardHash
    ∧ (undoMove (applyMoveBroadside (some spC3) (some spC4) Direction.northWest
        defaultGame)).board spD4 = defaultGame.board spD4 := by
  have h1 : (applyMoveInline (some spA1) Direction.northEast defaultGame).err = none := by
    decide
  have h2 : (applyMoveBroadside (some spC3) (some spC4) Direction.northWest
      defaultGame).err = none := by decide
  exact ⟨h1, h2,
    ((c1_undo_exact defaultGame Direction.northEast).1 (some spA1) h1).1 spD4,
    ((c1_undo_exact defaultGame Direction.northEast).1 (some spA1) h1).2,
    ((c1_undo_exact defaultGame Direction.northWest).2 (some spC3) (some spC4) h2).1 spD4⟩

/-- C2: for every game state, caboose Space and Direction, and every
boundary pair and Direction, the Move apply raises IllegalMoveException
exactly when the matching is_illegal_move predicate answers that the move
is illegal, and a negative answer of the predicate means apply succeeds. -/
theorem c2_apply_iff_illegal (g : Game) (d : Direction) :
    (∀ cb : Space,
      ((∃ m, (applyMoveInline cb d g).err = some (GErr.illegal m))
          ↔ is_illegal_move_inline g cb d = Except.ok true)
        ∧ (is_illegal_move_inline g cb d = Except.ok false →
            (applyMoveInline cb d g).err = none))
    ∧ (∀ b0 b1 : Space,
      ((∃ m, (applyMoveBroadside b0 b1 d g).err = some (GErr.illegal m))
          ↔ is_illegal_move_broadside g b0 b1 d = true)
        ∧ (is_illegal_move_broadside g b0 b1 d = false →
            (applyMoveBroadside b0 b1 d g).err = none)) := by
  constructor
  · rintro (_ | cb)
    · constructor
      · constructor
        · rintro ⟨m, hm⟩
          rw [show (applyMoveInline none d g).err
              = some (GErr.invalidSpace "Cannot get state of Space OFF") from rfl] at hm
          simp at hm
        · intro hf
          simp [is_illegal_move_inline] at hf
      · intro hf
        simp [is_illegal_move_inline] at hf
    · have hiff := inlineCore_iff g cb d
      have hok : is_illegal_move_inline g (some cb) d
          = Except.ok (isIllegalInlineCore g cb d) := rfl
      constructor
      · rw [hok]
        constructor
        · rintro ⟨m, hm⟩
          rw [applyMoveInline_err_eq] at hm
          rw [hiff.1.mp ⟨m, hm⟩]
        · intro ht
          have hx : isIllegalInlineCore g cb d = true := by
            injection ht
          obtain ⟨m, hm⟩ := hiff.1.mpr hx
          rw [applyMoveInline_err_eq]
          exact ⟨m, hm⟩
      · intro hf
        rw [hok] at hf
        have hx : isIllegalInlineCore g cb d = false := by
          injection hf
        rw [applyMoveInline_err_eq]
        exact hiff.2 hx
  · intro b0 b1
    have hiff := broadsideCore_iff g b0 b1 d
    constructor
    · constructor
      · rintro ⟨m, hm⟩
        rw [applyMoveBroadside_err_eq] at hm
        exact hiff.1.mp ⟨m, hm⟩
      · intro ht
        obtain ⟨m, hm⟩ := hiff.1.mpr ht
        rw [applyMoveBroadside_err_eq]
        exact ⟨m, hm⟩
    · intro hf
      rw [applyMoveBroadside_err_eq]
      exact hiff.2 hf

theorem c2_apply_iff_illegal_witness :
    (applyMoveInline (some spA1) Direction.northEast defaultGame).err = none
    ∧ (applyMoveBroadside (some spC3) (some spC4) Direction.northWest defaultGame).err
        = none
    ∧ (∃ m, (applyMoveInline (some spE5) Direction.northEast defaultGame).err
        = some (GErr.illegal m)) := by
  refine ⟨((c2_apply_iff_illegal defaultGame Direction.northEast).1 (some spA1)).2 rfl,
    ((c2_apply_iff_illegal defaultGame Direction.northWest).2 (some spC3) (some spC4)).2
      (by decide),
    ((c2_apply_iff_illegal defaultGame Direction.northEast).1 (some spE5)).1.mpr rfl⟩

/-- C3: for every game state and every inline or broadside move, if apply
reports an exception then the game state is unchanged: every board cell and
the position hash keep their pre-apply values — no partial mutation
happens before the checks complete. -/
theorem c3_no_partial_mutation (g : Game) (d : Direction) :
    (∀ (cb : Space) (e : GErr), (applyMoveInline cb d g).err = some e →
      (∀ s : Spc, (applyMoveInline cb d g).game.board s = g.board s)
        ∧ (applyMoveInline cb d g).game.boardHash = g.boardHash)
    ∧ (∀ (b0 b1 : Space) (e : GErr), (applyMoveBroadside b0 b1 d g).err = some e →
      (∀ s : Spc, (applyMoveBroadside b0 b1 d g).game.board s = g.board s)
        ∧ (applyMoveBroadside b0 b1 d g).game.boardHash = g.boardHash) := by
  constructor
  · rintro (_ | cb) e h
    · exact ⟨fun s => rfl, rfl⟩
    · rw [applyMoveInline_err_eq] at h
      rw [applyMoveInline_err g cb d e h]
      rcases inlineCore_cases g cb d with ⟨_, _, hg, _⟩ | ⟨_, _, _, _, _, _, _, hshape⟩
      · refine ⟨fun s => ?_, ?_⟩ <;> dsimp only <;> rw [hg]
      · exfalso
        have hnone : (inlineApplyCore g cb d).err = none := by
          rcases hshape with ⟨_, heq⟩ | ⟨pt, _, _, _, _, _, heq⟩ <;> rw [heq]
        rw [hnone] at h
        exact Option.noConfusion h
  · intro b0 b1 e h
    rw [applyMoveBroadside_err_eq] at h
    rw [applyMoveBroadside_err g b0 b1 d e h]
    rcases broadsideCore_cases g b0 b1 d with ⟨_, _, hg, _⟩ |
      ⟨_, s0, s1, marbles, d1, hb0, hb1, _, _, _, hcl, happ⟩
    · refine ⟨fun s => ?_, ?_⟩ <;> dsimp only <;> rw [hg]
    · exfalso
      have hnone : (broadsideApply b0 b1 d g).err = none := by
        rw [happ]
        refine mutateLoop_ok d marbles ?_ g []
        intro m hm2
        obtain ⟨_, t, hn, _⟩ := checkLoop_facts g d marbles hcl m hm2
        exact ⟨t, hn⟩
      rw [hnone] at h
      exact Option.noConfusion h

theorem c3_no_partial_mutation_witness :
    (applyMoveInline (some spE5) Direction.northEast defaultGame).err
        = some (GErr.illegal "Only own marbles may be moved")
    ∧ (applyMoveInline (some spE5) Direction.northEast defaultGame).game.board spE5
        = defaultGame.board spE5
    ∧ (applyMoveInline (some spE5) Direction.northEast defaultGame).game.boardHash
        = defaultGame.boardHash
    ∧ (applyMoveBroadside none none Direction.northEast defaultGame).game.board spA1
        = defaultGame.board spA1 := by
  have h1 : (applyMoveInline (some spE5) Direction.northEast defaultGame).err
      = some (GErr.illegal "Only own marbles may be moved") := by decide
  have h2 : (applyMoveBroadside none none Direction.northEast defaultGame).err
      = some (GErr.illegal "Elements of boundaries must not be Space OFF") := by decide
  exact ⟨h1,
    ((c3_no_partial_mutation defaultGame Direction.northEast).1 (some spE5)
      (GErr.illegal "Only own marbles may be moved") h1).1 spE5,
    ((c3_no_partial_mutation defaultGame Direction.northEast).1 (some spE5)
      (GErr.illegal "Only own marbles may be moved") h1).2,
    ((c3_no_partial_mutation defaultGame Direction.northEast).2 none none
      (GErr.illegal "Elements of boundaries must not be Space OFF") h2).1 spA1⟩

/-- C4: for every legal move, an inline push whose push_to space is OFF
lowers the opponent count of get_score by exactly one and keeps the mover
count; every other legal inline move and every legal broadside move keeps
both counts; hence no count ever increases across an applied move. -/
theorem c4_score_conservation (g : Game) (d : Direction) :
    (∀ cb : Spc, (applyMoveInline (some cb) d g).err = none →
      (inline_push_off g cb d = true →
          scoreOf (get_score (applyMoveInline (some cb) d g).game) g.turn
              = scoreOf (get_score g) g.turn
            ∧ scoreOf (get_score (applyMoveInline (some cb) d g).game)
                  (not_in_turn_player g) + 1
              = scoreOf (get_score g) (not_in_turn_player g))
        ∧ (inline_push_off g cb d = false →
            get_score (applyMoveInline (some cb) d g).game = get_score g)
        ∧ (∀ p : Player, scoreOf (get_score (applyMoveInline (some cb) d g).game) p
            ≤ scoreOf (get_score g) p))
    ∧ (∀ b0 b1 : Space, (applyMoveBroadside b0 b1 d g).err = none →
        get_score (applyMoveBroadside b0 b1 d g).game = get_score g) := by
  constructor
  · intro cb h
    rw [applyMoveInline_err_eq] at h
    have hsc := inlineCore_score g cb d h
    rw [applyMoveInline_ok g cb d h]
    refine ⟨fun hpo => ?_, fun hpo => ?_, fun p => ?_⟩
    · rw [scoreOf_get_score, scoreOf_get_score, scoreOf_get_score, scoreOf_get_score]
      exact ⟨hsc.1, hsc.2.1 hpo⟩
    · have h1 := hsc.1
      have h2 := hsc.2.2 hpo
      cases hgt : g.turn <;>
        simp only [hgt, not_in_turn_player, marble_of_player] at h1 h2 <;>
        unfold get_score <;> dsimp only <;> rw [h1, h2]
    · rcases player_is_turn_or_not g p with hp | hp <;> subst hp
      · rw [scoreOf_get_score, scoreOf_get_score]
        exact le_of_eq hsc.1
      · by_cases hpo : inline_push_off g cb d = true
        · rw [scoreOf_get_score, scoreOf_get_score]
          dsimp only
          have := hsc.2.1 hpo
          omega
        · have hf : inline_push_off g cb d = false := Bool.eq_false_iff.mpr hpo
          rw [scoreOf_get_score, scoreOf_get_score]
          exact le_of_eq (hsc.2.2 hf)
  · intro b0 b1 h
    rw [applyMoveBroadside_err_eq] at h
    have heff := (broadsideCore_effects g b0 b1 d h).2
    rw [applyMoveBroadside_ok g b0 b1 d h]
    unfold get_score
    dsimp only
    rw [heff Marble.black, heff Marble.white]

theorem c4_score_conservation_witness :
    (applyMoveInline (some spA1) Direction.northEast defaultGame).err = none
    ∧ inline_push_off defaultGame spA1 Direction.northEast = false
    ∧ (applyMoveBroadside (some spC3) (some spC4) Direction.northWest defaultGame).err
        = none
    ∧ get_score (applyMoveInline (some spA1) Direction.northEast defaultGame).game
        = get_score defaultGame
    ∧ get_score (applyMoveBroadside (some spC3) (some spC4) Direction.northWest
        defaultGame).game = get_score defaultGame := by
  have h1 : (applyMoveInline (some spA1) Direction.northEast defaultGame).err = none := by
    decide
  have hp : inline_push_off defaultGame spA1 Direction.northEast = false := by decide
  have h2 : (applyMoveBroadside (some spC3) (some spC4) Direction.northWest
      defaultGame).err = none := by decide
  exact ⟨h1, hp, h2,
    ((c4_score_conservation defaultGame Direction.northEast).1 spA1 h1).2.1 hp,
    (c4_score_conservation defaultGame Direction.northWest).2 (some spC3) (some spC4) h2⟩

/-- C5: the generator never yields a move list: generate_own_marble_lines
has no return statement and returns None, so possible_moves raises
TypeError on every game state instead of producing the legal moves. -/
theorem c5_possible_moves_raises (g : Game) :
    possible_moves g = Except.error (GErr.typeErr "NoneType object is not iterable") :=
  rfl

/-- C6 counterexample: make_move accepts the inline move of the A1 marble
to the north east on the default game, yet the turn owner afterwards is
still BLACK, not the opposite player the claim requires. -/
theorem c6_turn_counterexample :
    (make_move defaultGame (MoveDesc.inline (some spA1) Direction.northEast)).err = none
    ∧ (make_move defaultGame
        (MoveDesc.inline (some spA1) Direction.northEast)).game.turn = Player.black
    ∧ defaultGame.turn = Player.black
    ∧ Player.black ≠ Player.white := by
  exact ⟨by decide, rfl, rfl, by decide⟩

/-- C6 amended: make_move never touches the turn owner; alternation is the
separate switch_player step, which sets the turn to the not-in-turn player,
a player different from the one in turn. -/
theorem c6_turn_amended (g : Game) (m : MoveDesc) :
    (make_move g m).game.turn = g.turn
    ∧ (switch_player g).turn = not_in_turn_player g
    ∧ not_in_turn_player g ≠ g.turn := by
  refine ⟨?_, rfl, ?_⟩
  · cases m with
    | inline cb d => exact applyMoveInline_turn cb d g
    | broadside b0 b1 d => exact applyMoveBroadside_turn b0 b1 d g
  · cases hgt : g.turn <;> simp [not_in_turn_player, hgt]

/-- C7 counterexample: on the default game the inline move of the A1
caboose to the north east is accepted, but it changes the cell D4 — a cell
different from A1 and from its north-east neighbor B2 — because the whole
own run A1 B2 C3 advances and its head lands on D4. -/
theorem c7_scenario_counterexample :
    (applyMoveInline (some spA1) Direction.northEast defaultGame).err = none
    ∧ neighbor spA1 Direction.northEast = some spB2
    ∧ defaultGame.board spD4 = Marble.blank
    ∧ (applyMoveInline (some spA1) Direction.northEast defaultGame).game.board spD4
        = Marble.black
    ∧ spD4 ≠ spA1
    ∧ spD4 ≠ spB2 := by decide

/-- C7 amended: the accepted move empties A1 and paints D4 black — D4 is
line[own_marbles_num], the cell past the own run of length three starting
at A1 — and every other cell keeps its initial content. -/
theorem c7_scenario_amended :
    (applyMoveInline (some spA1) Direction.northEast defaultGame).err = none
    ∧ ∀ s : Spc,
        (applyMoveInline (some spA1) Direction.northEast defaultGame).game.board s
          = if s = spA1 then Marble.blank
            else if s = spD4 then Marble.black
            else defaultGame.board s := by decide

/-- C8 counterexample: distance is not total: on the pair (I9, A5) the
source builds the name I13, which is no Space member, and the lookup raises
KeyError. -/
theorem c8_distance_counterexample : distance spI9 spA5 = none := rfl

/-- C8 amended: distance of a cell to itself is zero, and distance is
symmetric on every pair of cells — including the pairs where both
directions raise — but it is not defined on every pair. -/
theorem c8_distance_amended :
    (∀ a : Spc, distance a a = some 0)
    ∧ ∀ a b : Spc, distance a b = distance b a := by
  exact ⟨by decide, by decide⟩

/-- C9: the division of the centrality sum by the marble count is not
guarded: on a board where the color has no marbles, _heuristic_score
divides by zero and Python raises ZeroDivisionError (the none of the
model), so evaluation does fail on that input. -/
theorem c9_division_unguarded :
    heuristic_score_for ⟨1, 1, 1⟩ blankGame Player.black = none
    ∧ heuristic_score ⟨1, 1, 1⟩ blankGame = none := by
  exact ⟨rfl, rfl⟩

/-- C10: get_winner as written answers WHITE whenever the black count is 8
— the white count notwithstanding, so also on (8, 8) — answers BLACK when
the white count is 8 and the black one is not, and answers no winner when
neither count is 8. -/
theorem c10_get_winner_cases (bc wc : Nat) :
    (bc = 8 → get_winner (bc, wc) = some Player.white)
    ∧ get_winner (8, 8) = some Player.white
    ∧ (wc = 8 → bc ≠ 8 → get_winner (bc, wc) = some Player.black)
    ∧ (bc ≠ 8 → wc ≠ 8 → get_winner (bc, wc) = none) := by
  refine ⟨?_, by decide, ?_, ?_⟩
  · intro h
    subst h
    simp [get_winner]
  · intro hw hb
    subst hw
    simp [get_winner, hb]
  · intro hb hw
    simp [get_winner, hb, hw]

theorem c10_get_winner_cases_witness :
    get_winner (8, 5) = some Player.white
    ∧ get_winner (8, 8) = some Player.white
    ∧ get_winner (5, 8) = some Player.black
    ∧ get_winner (7, 6) = none :=
  ⟨(c10_get_winner_cases 8 5).1 rfl,
   (c10_get_winner_cases 8 8).2.1,
   (c10_get_winner_cases 5 8).2.2.1 rfl (by decide),
   (c10_get_winner_cases 7 6).2.2.2 (by decide) (by decide)⟩

end Abalone
